import Mathlib

/-! Fetch engine and serial relay engine of `src/main.c`.

A shallow embedding of the two event-driven state machines of the firmware:

* the *Fetch* command (`fetch_handler`, `http_cb`): a network download that is
  streamed chunk by chunk into a destination file;
* the *SAM3XDL* command (`dl_handler`, `uart_dispatcher`, `timer_cb`): a file
  that is relayed line by line over a serial link, each line gated by the
  acknowledgment token `OK\r\n`, supervised by a tick countdown.

Bytes are natural numbers.  External collaborators (RPC transport, UART
driver, timer service, file system, network client) appear only through the
effects the handlers have on them: the reports sent, the bytes written to the
serial link, the set of armed timers, the receive-notification switch and the
content of the files.
-/

namespace Esp32

/-! ## Constants of `main.c` -/

/-- UART used for communication with the SAM3X (`SAM3X_UART`). -/
def SAM3X_UART : Nat := 1

/-- Initial timeout (`TIMEOUT_INITIAL`). -/
def TIMEOUT_INITIAL : Int := 5000

/-- Timeout between lines (`TIMEOUT_FOLLOWING`). -/
def TIMEOUT_FOLLOWING : Int := 1000

/-- Maximal length of a line (`MAX_GCODE_LINE_LENGTH`). -/
def MAX_GCODE_LINE_LENGTH : Nat := 200

/-- Size of `response_buffer` (`char response_buffer[20]`). -/
def RESPONSE_BUFFER_SIZE : Nat := 20

/-- The string literal `"\r\n"`. -/
def CRLF : List Nat := [13, 10]

/-- The string literal `"OK\r\n"`, the acknowledgment token. -/
def OK_TOKEN : List Nat := [79, 75, 13, 10]

/-- The string literal `"{\"Status\": \"OK\"}"`. -/
def STATUS_OK : String := "\x7b\"Status\": \"OK\"\x7d"

/-- The string literal `"{\"Status\": \"TIMEOUT\"}"`. -/
def STATUS_TIMEOUT : String := "\x7b\"Status\": \"TIMEOUT\"\x7d"

/-! ## C library primitives -/

/-- A C stream.  For a stream opened for reading `bytes` is the part of the file
that has not been read yet; for a stream opened for writing it is what has been
written so far. -/
structure FILE where
  bytes : List Nat
  isOpen : Bool
deriving DecidableEq, Repr

/-- The content of a `char` array read as a C string: the bytes before the
first NUL. -/
def cstr (buf : List Nat) : List Nat :=
  buf.takeWhile (fun b => b ≠ 0)

/-- The characters `fgets` stores when it may store at most `k` of them: it
stops after a newline and at the end of the file. -/
def fgets_chars : Nat → List Nat → List Nat
  | 0, _ => []
  | _ + 1, [] => []
  | k + 1, b :: bs => if b = 10 then [b] else b :: fgets_chars k bs

/-- The call `fgets(buf, n, fp)`: the characters stored in `buf` and the
advanced stream, or `none` for a `NULL` result (nothing could be read). -/
def fgets (n : Nat) (fp : FILE) : Option (List Nat × FILE) :=
  if fp.isOpen then
    let line := fgets_chars (n - 1) fp.bytes
    if line = [] then none
    else some (line, { fp with bytes := fp.bytes.drop line.length })
  else none

/-- The call `strcat(dst, src)` on C strings. -/
def strcat (dst src : List Nat) : List Nat :=
  cstr dst ++ cstr src

/-- The call `strlen`. -/
def strlen (buf : List Nat) : Nat :=
  (cstr buf).length

/-- The `n` bytes that `strncpy(dst, src, n)` stores: the characters of `src`
up to its first NUL, padded with NUL bytes to `n` bytes. -/
def strncpy_bytes (src : List Nat) (n : Nat) : List Nat :=
  let pre := (cstr src).take n
  pre ++ List.replicate (n - pre.length) 0

/-- Store `bytes` into the array `buf` from index `i` on; a store beyond the
end of the array does not change the array. -/
def poke (buf : List Nat) : Nat → List Nat → List Nat
  | _, [] => buf
  | i, b :: bs => poke (buf.set i b) (i + 1) bs

/-- Store `bytes` into the memory `mem` that follows an array, from its index
`i` on.  The memory is known as far as it has been stored into: a byte that
was never stored reads as NUL, and storing nothing changes nothing. -/
def poke_past (mem : List Nat) (i : Nat) : List Nat → List Nat
  | [] => mem
  | b :: bs =>
    (mem ++ List.replicate (i - mem.length) 0).take i ++ (b :: bs) ++
      mem.drop (i + (bs.length + 1))

/-- The call `strstr(hay, needle) != NULL` on C strings given by their
characters: `needle` occurs in `hay` as a contiguous block. -/
def strstr : List Nat → List Nat → Bool
  | [], needle => needle.isEmpty
  | h :: hay, needle => needle.isPrefixOf (h :: hay) || strstr hay needle

/-- The call `fclose(fp)`. -/
def fclose (fp : FILE) : FILE :=
  { fp with isOpen := false }

/-- Reduce an integer to the range of `int64_t` (two's complement). -/
def int64 (x : Int) : Int :=
  (x + 2 ^ 63) % 2 ^ 64 - 2 ^ 63

/-! ## RPC reports -/

/-- A reply sent through the RPC transport to the request `ri`. -/
inductive Report where
  /-- The calls `mg_rpc_send_responsef` and `mgos_rpc_send_response`. -/
  | response (ri : Nat) (body : String)
  /-- The call `mg_rpc_send_errorf`; `msg` is `none` for a `NULL` format. -/
  | error (ri : Nat) (code : Int) (msg : Option String)
deriving DecidableEq, Repr

/-- The format `"{written: %llu}"` applied to the `int64_t` counter. -/
def fmt_written (written : Int) : String :=
  "\x7bwritten: " ++ toString (written % 2 ^ 64).toNat ++ "\x7d"

/-! ## Fetch engine -/

/-- The session record `struct state`. -/
structure state where
  ri : Nat
  status : Int
  written : Int
  fp : Option FILE
deriving DecidableEq, Repr

/-- The two flags of `struct mg_connection` that `http_cb` sets. -/
structure mg_connection where
  /-- The flag `MG_F_CLOSE_IMMEDIATELY`. -/
  close_immediately : Bool
  /-- The flag `MG_F_DELETE_CHUNK`. -/
  delete_chunk : Bool
deriving DecidableEq, Repr

/-- The events delivered to `http_cb` together with their event data.  For a
chunk, `room` is the number of bytes the destination still accepts: `fwrite`
persists `min body.length room` bytes. -/
inductive HttpEvent where
  | connect (status : Int)
  | chunk (body : List Nat) (room : Nat)
  | reply (resp_code : Int)
  | close
  | other (ev : Nat)
deriving DecidableEq, Repr

/-- What `http_cb` does to the world besides updating the session and the
connection flags. -/
inductive Effect where
  | report (r : Report)
  | fclose
  | free
deriving DecidableEq, Repr

/-- The call `fwrite(body, 1, len, fp)`: the count written and the stream. -/
def fwrite (body : List Nat) (room : Nat) (fp : Option FILE) : Nat × Option FILE :=
  match fp with
  | none => (0, none)
  | some f =>
    if f.isOpen then
      let n := min body.length room
      (n, some { f with bytes := f.bytes ++ body.take n })
    else (0, some f)

/-- The callback `http_cb`, one event on a live session. -/
def http_cb (c : mg_connection) (ev : HttpEvent) (st : state) :
    mg_connection × state × List Effect :=
  match ev with
  | .connect status => (c, { st with status := status }, [])
  | .chunk body room =>
    let w := fwrite body room st.fp
    let n := w.1
    let st0 := { st with fp := w.2 }
    let c1 := if n ≠ body.length then { c with close_immediately := true } else c
    let st1 := if n ≠ body.length then { st0 with status := 500 } else st0
    let st2 := { st1 with written := int64 (st1.written + n) }
    ({ c1 with delete_chunk := true }, st2, [])
  | .reply resp_code =>
    ({ c with close_immediately := true }, { st with status := resp_code }, [])
  | .close =>
    let r :=
      if st.status = 200 then Report.response st.ri (fmt_written st.written)
      else Report.error st.ri st.status none
    match st.fp with
    | some f => (c, { st with fp := some (fclose f) }, [.report r, .fclose, .free])
    | none => (c, st, [.report r, .free])
  | .other _ => (c, st, [])

/-- A fetch in flight: the connection, the session record, whether the record
has been released, and everything the callback has done so far. -/
structure FetchSession where
  c : mg_connection
  st : state
  freed : Bool
  out : List Effect
deriving DecidableEq, Repr

/-- Deliver one event to the session.  A released session receives nothing:
the connection-closed event is the last one of a connection. -/
def FetchSession.deliver (w : FetchSession) (ev : HttpEvent) : FetchSession :=
  if w.freed then w
  else
    let r := http_cb w.c ev w.st
    { c := r.1, st := r.2.1, freed := r.2.2.contains Effect.free, out := w.out ++ r.2.2 }

/-- Deliver a sequence of events. -/
def FetchSession.run (w : FetchSession) (evs : List HttpEvent) : FetchSession :=
  evs.foldl FetchSession.deliver w

/-- The reports among a list of effects. -/
def reportsOf (out : List Effect) : List Report :=
  out.filterMap fun (e : Effect) => match e with
    | .report r => some r
    | _ => none

/-- Outcomes of the external calls made by `fetch_handler`. -/
structure FetchEnv where
  /-- Whether `fopen(path, "w")` returns a stream. -/
  fopen_ok : Bool
  /-- Whether `calloc` returns memory. -/
  calloc_ok : Bool
  /-- Whether `mg_connect_http` returns a connection. -/
  connect_ok : Bool
deriving DecidableEq, Repr

/-- What a call of `fetch_handler` leaves behind. -/
structure FetchResult where
  /-- The reports sent during the call. -/
  out : List Report
  /-- The local `fp` at the label `done`. -/
  fp : Option FILE
  /-- The session record that is still allocated at the label `done`. -/
  session : Option state
  /-- The number of session records allocated by `calloc`. -/
  allocated : Nat
  /-- The URLs handed to `mg_connect_http`. -/
  connects : List String
deriving DecidableEq, Repr

/-- The handler `fetch_handler`; `url` and `path` are what `json_scanf`
extracted from the arguments. -/
def fetch_handler (ri : Nat) (url path : Option String) (env : FetchEnv) : FetchResult :=
  if url.isNone || path.isNone then
    { out := [.error ri 500 (some "expecting url or file")], fp := none, session := none,
      allocated := 0, connects := [] }
  else
    let fp : Option FILE :=
      if path.isSome && env.fopen_ok then some { bytes := [], isOpen := true } else none
    if path.isSome && fp.isNone then
      { out := [.error ri 500 (some ("cannot open " ++ path.getD ""))], fp := fp,
        session := none, allocated := 0, connects := [] }
    else if !env.calloc_ok then
      { out := [.error ri 500 (some "OOM")], fp := fp, session := none,
        allocated := 0, connects := [] }
    else
      let st : state := { ri := ri, status := 0, written := 0, fp := fp }
      if !env.connect_ok then
        { out := [.error ri 500 (some "malformed URL")], fp := fp, session := none,
          allocated := 1, connects := [url.getD ""] }
      else
        { out := [], fp := fp, session := some st, allocated := 1, connects := [url.getD ""] }

/-- The chunk events of a list of chunks, each given by its body and the room
the destination has for it. -/
def chunk_events (chunks : List (List Nat × Nat)) : List HttpEvent :=
  chunks.map fun c => HttpEvent.chunk c.1 c.2

/-- The bytes of a list of chunks in arrival order. -/
def chunk_bytes : List (List Nat × Nat) → List Nat
  | [] => []
  | c :: cs => c.1 ++ chunk_bytes cs

/-- The fetch in flight that a successful `fetch_handler` call leaves behind. -/
def FetchSession.start (st : state) : FetchSession :=
  { c := { close_immediately := false, delete_chunk := false }, st := st, freed := false,
    out := [] }

/-! ## Relay engine -/

/-- What the relay engine emits: serial output and reports. -/
inductive Output where
  | uart_write (uart_no : Nat) (bytes : List Nat)
  | uart_flush (uart_no : Nat)
  | report (r : Report)
deriving DecidableEq, Repr

/-- The globals of the relay engine (`tstate`, `timer_id`, `gcode_buffer`,
`response_buffer`, `p`, `timeout`) and the part of the environment its handlers
act on. -/
structure Relay where
  /-- The field `tstate.ri`. -/
  ri : Nat
  /-- The field `tstate.fp`; `none` is `NULL`. -/
  fp : Option FILE
  timer_id : Nat
  /-- The C string held in `gcode_buffer`. -/
  gcode_buffer : List Nat
  /-- The `RESPONSE_BUFFER_SIZE` bytes of `response_buffer`. -/
  response_buffer : List Nat
  /-- The offset of the pointer `p` from the start of `response_buffer`. -/
  p : Nat
  timeout : Int
  /-- The memory directly past the end of `response_buffer`, as far as `strncpy`
  has stored into it: entry `i` is the byte at offset `RESPONSE_BUFFER_SIZE + i`
  from the start of the array. -/
  overrun : List Nat
  /-- The identifiers of the armed timers. -/
  timers : List Nat
  /-- The identifier `mgos_set_timer` hands out next. -/
  next_timer : Nat
  /-- Whether serial-receive notifications are enabled. -/
  rx_enabled : Bool
  /-- Everything emitted so far, oldest first. -/
  out : List Output
deriving DecidableEq, Repr

/-- The state after startup: zero-initialised globals, `p` at the start of the
buffer and `timeout` at its initialiser. -/
def Relay.boot : Relay :=
  { ri := 0, fp := none, timer_id := 0, gcode_buffer := [],
    response_buffer := List.replicate RESPONSE_BUFFER_SIZE 0, p := 0,
    timeout := TIMEOUT_INITIAL / 10, overrun := [], timers := [], next_timer := 1,
    rx_enabled := false, out := [] }

/-- The callback `timer_cb`. -/
def timer_cb (s : Relay) : Relay :=
  if s.timeout > 0 then { s with timeout := s.timeout - 1 }
  else
    { s with
      out := s.out ++ [.report (.response s.ri STATUS_TIMEOUT)]
      timers := s.timers.erase s.timer_id
      rx_enabled := false }

/-- Read the next line into `gcode_buffer` and send it; `none` if `fgets`
returns `NULL`.  This is the block shared by `uart_dispatcher` (lines 160-164)
and `dl_handler` (lines 213-217). -/
def send_line (s : Relay) : Option Relay :=
  match s.fp with
  | none => none
  | some f =>
    match fgets MAX_GCODE_LINE_LENGTH f with
    | none => none
    | some (line, f1) =>
      let buf := strcat line CRLF
      some { s with
        fp := some f1
        gcode_buffer := buf
        out := s.out ++ [.uart_write SAM3X_UART (buf.take (strlen buf)), .uart_flush SAM3X_UART] }

/-- Lines 154-155 of `uart_dispatcher`: `strncpy` the received bytes to `p` and
advance `p` by their number.  There is no check against the size of the array:
the bytes that do not fit are stored into the memory past its end. -/
def store_rx (data : List Nat) (s : Relay) : Relay :=
  let stored := strncpy_bytes data data.length
  { s with
    response_buffer := poke s.response_buffer s.p stored
    overrun := poke_past s.overrun (s.p - RESPONSE_BUFFER_SIZE)
      (stored.drop (RESPONSE_BUFFER_SIZE - s.p))
    p := s.p + data.length }

/-- Line 157 of `uart_dispatcher`, the acknowledgment scanner:
`strstr(response_buffer, "OK\r\n")` finds the token.  The scan runs from the
start of the array to the first NUL byte; when the array holds none it goes on
into the memory past its end, which holds what `strncpy` stored there and reads
as NUL beyond that. -/
def ack_found (s : Relay) : Bool :=
  strstr (cstr (s.response_buffer ++ s.overrun)) OK_TOKEN

/-- The dispatcher `uart_dispatcher`; `data` are the bytes available on the
UART, all of which `mgos_uart_read_mbuf` reads. -/
def uart_dispatcher (data : List Nat) (s : Relay) : Relay :=
  let rx_av := data.length
  if rx_av > 0 then
    let s1 := store_rx data s
    if ack_found s1 then
      let s2 : Relay :=
        match send_line s1 with
        | some s3 =>
          { s3 with p := 0, response_buffer := List.replicate RESPONSE_BUFFER_SIZE 0 }
        | none =>
          { s1 with
            fp := s1.fp.map fclose
            out := s1.out ++ [.report (.response s1.ri STATUS_OK)]
            timers := s1.timers.erase s1.timer_id
            rx_enabled := false }
      { s2 with timeout := TIMEOUT_FOLLOWING / 10 }
    else s1
  else s

/-- The handler `dl_handler`; `path` is what `json_scanf` extracted and `fs`
gives the content of the files that `fopen(path, "r")` can open. -/
def dl_handler (ri : Nat) (path : Option String) (fs : String → Option (List Nat))
    (s : Relay) : Relay :=
  match path with
  | none => { s with out := s.out ++ [.report (.error ri 500 (some "expecting file"))] }
  | some path =>
    match fs path with
    | none =>
      { s with out := s.out ++ [.report (.error ri 500 (some ("cannot open " ++ path)))] }
    | some content =>
      let s1 : Relay := { s with
        p := 0
        response_buffer := List.replicate RESPONSE_BUFFER_SIZE 0
        fp := some { bytes := content, isOpen := true }
        ri := ri }
      let s2 := (send_line s1).getD s1
      { s2 with
        timer_id := s2.next_timer
        timers := s2.timers ++ [s2.next_timer]
        next_timer := s2.next_timer + 1
        timeout := TIMEOUT_INITIAL / 10
        rx_enabled := true }

/-- Whether the scanner reports a match in the receive event that delivers
`data`: the dispatcher has data (lines 147 and 152) and `strstr` finds the token
after the data is stored (line 157). -/
def ack_detected (data : List Nat) (s : Relay) : Bool :=
  decide (data.length > 0) && ack_found (store_rx data s)

/-- The events of the relay engine: a firing of the repeating timer and the
arrival of serial data. -/
inductive RelayEvent where
  | tick
  | rx (data : List Nat)
deriving DecidableEq, Repr

/-- Deliver one event: a tick reaches `timer_cb` only while a timer is armed,
serial data reaches `uart_dispatcher` only while notifications are enabled. -/
def Relay.step (s : Relay) : RelayEvent → Relay
  | .tick => if s.timers = [] then s else timer_cb s
  | .rx data => if s.rx_enabled then uart_dispatcher data s else s

/-- Deliver a sequence of events. -/
def Relay.run (s : Relay) (evs : List RelayEvent) : Relay :=
  evs.foldl Relay.step s

/-- The reports among a list of outputs. -/
def reports_in (out : List Output) : List Report :=
  out.filterMap fun (o : Output) => match o with
    | .report r => some r
    | _ => none

/-- The byte blocks written to the serial link among a list of outputs. -/
def writes_in (out : List Output) : List (List Nat) :=
  out.filterMap fun (o : Output) => match o with
    | .uart_write _ bytes => some bytes
    | _ => none

/-- The reports sent so far. -/
def Relay.reports (s : Relay) : List Report :=
  reports_in s.out

/-- The byte blocks written to the serial link so far. -/
def Relay.writes (s : Relay) : List (List Nat) :=
  writes_in s.out

/-! ## Relay engine: runs and their description -/

/-- The successive results of `fgets(gcode_buffer, MAX_GCODE_LINE_LENGTH, fp)`
on a stream with the unread bytes `bytes`, until it returns `NULL`; `fuel`
bounds the number of calls. -/
def read_lines_fuel : Nat → List Nat → List (List Nat)
  | 0, _ => []
  | fuel + 1, bytes =>
    if bytes = [] then []
    else
      (fgets_chars (MAX_GCODE_LINE_LENGTH - 1) bytes) ::
        read_lines_fuel fuel
          (bytes.drop (fgets_chars (MAX_GCODE_LINE_LENGTH - 1) bytes).length)

/-- The successive results of `fgets` on a file with the given content; every
call consumes a byte, so as many calls as there are bytes are enough. -/
def read_lines (bytes : List Nat) : List (List Nat) :=
  read_lines_fuel bytes.length bytes

/-- What `send_line` emits for a line read by `fgets`. -/
def line_outputs (line : List Nat) : List Output :=
  [.uart_write SAM3X_UART (cstr line ++ CRLF), .uart_flush SAM3X_UART]

/-- The outputs for a sequence of lines. -/
def lines_outputs : List (List Nat) → List Output
  | [] => []
  | l :: ls => line_outputs l ++ lines_outputs ls

/-- The events of a controller that acknowledges every line: for each entry
`k` of the schedule, `k` ticks pass and then the token `OK\r\n` arrives in one
receive event. -/
def acked : List Nat → List RelayEvent
  | [] => []
  | k :: ks => List.replicate k RelayEvent.tick ++ RelayEvent.rx OK_TOKEN :: acked ks

/-- The engine waits for an acknowledgment with the bytes `rest` of the source
still unread: the source is open, the response buffer is reset, the timer of
the session is the one armed timer and notifications are enabled. -/
structure Awaiting (s : Relay) (rest : List Nat) : Prop where
  fp : s.fp = some ⟨rest, true⟩
  buf : s.response_buffer = List.replicate RESPONSE_BUFFER_SIZE 0
  p : s.p = 0
  timers : s.timers = [s.timer_id]
  rx : s.rx_enabled = true

/-- A relay session for the caller `ri` that has sent no terminal report yet:
the reports are those sent before the session, `rs`; the timer of the session
is the one armed timer, notifications are enabled and the countdown is within
the initial budget. -/
structure Live (rs : List Report) (ri : Nat) (s : Relay) : Prop where
  reports : s.reports = rs
  ri : s.ri = ri
  timers : s.timers = [s.timer_id]
  rx : s.rx_enabled = true
  lo : 0 ≤ s.timeout
  hi : s.timeout ≤ 500

/-- A relay session for the caller `ri` that has sent its terminal report: one
report, OK or TIMEOUT, follows the reports `rs` sent before the session, the
timer is cancelled and notifications are disabled. -/
structure Done (rs : List Report) (ri : Nat) (s : Relay) : Prop where
  reports : s.reports = rs ++ [.response ri STATUS_OK] ∨
    s.reports = rs ++ [.response ri STATUS_TIMEOUT]
  timers : s.timers = []
  rx : s.rx_enabled = false

/-- Whether a line can be read whole by one `fgets` call and sent unchanged:
it is not empty, has at most `MAX_GCODE_LINE_LENGTH - 1` bytes, no NUL byte,
and no newline before its last byte. -/
def whole_line (l : List Nat) : Prop :=
  l ≠ [] ∧ l.length ≤ MAX_GCODE_LINE_LENGTH - 1 ∧ 0 ∉ l ∧ 10 ∉ l.dropLast

/-- A source file given by its lines: every line can be read whole, and every
line but the last ends with a newline. -/
def source_lines : List (List Nat) → Prop
  | [] => True
  | [l] => whole_line l
  | l :: ls => whole_line l ∧ l.getLast? = some 10 ∧ source_lines ls

/-- The lines of a file as the specification reads them: the file is cut after
every newline, and what follows the last newline, if anything, is the last
line.  `cur` is the line being collected. -/
def spec_lines_from (cur : List Nat) : List Nat → List (List Nat)
  | [] => if cur = [] then [] else [cur]
  | b :: bs =>
    if b = 10 then (cur ++ [b]) :: spec_lines_from [] bs
    else spec_lines_from (cur ++ [b]) bs

/-- The lines of a file as the specification reads them. -/
def spec_lines (content : List Nat) : List (List Nat) :=
  spec_lines_from [] content

/-- The writes the specification expects for a relayed file: its lines in
order, each truncated at the line-length bound and followed by the
terminator. -/
def spec_relay_writes (content : List Nat) : List (List Nat) :=
  (spec_lines content).map fun l => l.take MAX_GCODE_LINE_LENGTH ++ CRLF

/-- The number of bytes `fwrite` persists over the chunk events of a sequence
of events on an open sink: the sum of its return values, `min body.length room`
for each chunk, up to the connection-closed event, after which the session
receives nothing. -/
def chunk_counts : List HttpEvent → Nat
  | [] => 0
  | .close :: _ => 0
  | .chunk body room :: evs => min body.length room + chunk_counts evs
  | .connect _ :: evs => chunk_counts evs
  | .reply _ :: evs => chunk_counts evs
  | .other _ :: evs => chunk_counts evs

/-- The bytes `fwrite` persists over the chunk events of a sequence of events
on an open sink, in arrival order. -/
def chunk_persisted : List HttpEvent → List Nat
  | [] => []
  | .close :: _ => []
  | .chunk body room :: evs => body.take (min body.length room) ++ chunk_persisted evs
  | .connect _ :: evs => chunk_persisted evs
  | .reply _ :: evs => chunk_persisted evs
  | .other _ :: evs => chunk_persisted evs

/-- Lines 154-155 of `uart_dispatcher` for a sequence of receive events none of
which completes a token: each stores its data at the cursor. -/
def store_all (datas : List (List Nat)) (s : Relay) : Relay :=
  datas.foldl (fun s data => store_rx data s) s

/-- The receive events that deliver the given data one after the other. -/
def rx_events (datas : List (List Nat)) : List RelayEvent :=
  datas.map RelayEvent.rx

/-- The statuses that the events of a session record in `status`, in order, up
to the connection-closed event: a connect event records its raw connection
status, a full-reply event its HTTP status code, and a chunk that the open sink
has no room for (a short write) the internal-error status 500. -/
def recorded_statuses : List HttpEvent → List Int
  | [] => []
  | .close :: _ => []
  | .connect status :: evs => status :: recorded_statuses evs
  | .reply resp_code :: evs => resp_code :: recorded_statuses evs
  | .chunk body room :: evs =>
    if room < body.length then 500 :: recorded_statuses evs else recorded_statuses evs
  | .other _ :: evs => recorded_statuses evs

/-! ## Fetch engine: streaming of chunks -/

/-- Counters within the range of `int64_t` are not changed by the reduction. -/
theorem int64_of_range {x : Int} (h0 : 0 ≤ x) (h : x < 2 ^ 63) : int64 x = x := by
  unfold int64; omega

/-- A chunk whose write is complete is appended to the sink and counted. -/
theorem deliver_chunk_full (w : FetchSession) (body : List Nat) (room : Nat) (d : List Nat)
    (hfree : w.freed = false) (hfp : w.st.fp = some ⟨d, true⟩)
    (h0 : 0 ≤ w.st.written) (hlt : w.st.written + body.length < 2 ^ 63)
    (hroom : body.length ≤ room) :
    (w.deliver (.chunk body room)).freed = false ∧
    (w.deliver (.chunk body room)).st.fp = some ⟨d ++ body, true⟩ ∧
    (w.deliver (.chunk body room)).st.written = w.st.written + body.length ∧
    (w.deliver (.chunk body room)).st.status = w.st.status ∧
    (w.deliver (.chunk body room)).st.ri = w.st.ri ∧
    (w.deliver (.chunk body room)).out = w.out := by
  have hmin : min body.length room = body.length := Nat.min_eq_left hroom
  simp [FetchSession.deliver, http_cb, fwrite, hfree, hfp, hmin]
  exact int64_of_range (by omega) hlt

/-- A run of chunks whose writes are all complete. -/
theorem run_chunks_full (chunks : List (List Nat × Nat)) :
    ∀ (w : FetchSession) (d : List Nat), w.freed = false → w.st.fp = some ⟨d, true⟩ →
      0 ≤ w.st.written → w.st.written + (chunk_bytes chunks).length < 2 ^ 63 →
      (∀ c ∈ chunks, c.1.length ≤ c.2) →
      (w.run (chunk_events chunks)).freed = false ∧
      (w.run (chunk_events chunks)).st.fp = some ⟨d ++ chunk_bytes chunks, true⟩ ∧
      (w.run (chunk_events chunks)).st.written = w.st.written + (chunk_bytes chunks).length ∧
      (w.run (chunk_events chunks)).st.status = w.st.status ∧
      (w.run (chunk_events chunks)).st.ri = w.st.ri ∧
      (w.run (chunk_events chunks)).out = w.out := by
  induction chunks with
  | nil =>
    intro w d hfree hfp _ _ _
    simp [FetchSession.run, chunk_events, chunk_bytes, hfree, hfp]
  | cons c cs ih =>
    intro w d hfree hfp h0 hlt hroom
    have hlen : (chunk_bytes (c :: cs)).length = c.1.length + (chunk_bytes cs).length := by
      simp [chunk_bytes]
    rw [hlen] at hlt
    push_cast at hlt
    obtain ⟨e1, e2, e3, e4, e5, e6⟩ :=
      deliver_chunk_full w c.1 c.2 d hfree hfp h0 (by omega) (hroom c (by simp))
    have hrun : w.run (chunk_events (c :: cs)) = (w.deliver (.chunk c.1 c.2)).run (chunk_events cs) := by
      simp [FetchSession.run, chunk_events]
    obtain ⟨f1, f2, f3, f4, f5, f6⟩ :=
      ih (w.deliver (.chunk c.1 c.2)) (d ++ c.1) e1 e2 (by omega) (by omega)
        (fun c' hc' => hroom c' (by simp [hc']))
    rw [hrun]
    refine ⟨f1, ?_, ?_, ?_, ?_, ?_⟩
    · rw [f2]; simp [chunk_bytes]
    · rw [f3, e3, hlen]; push_cast; omega
    · rw [f4, e4]
    · rw [f5, e5]
    · rw [f6, e6]

/-! ## Fetch engine: the claims -/

/-- The decimal rendering of a count below `2 ^ 64` by the format
`"{written: %llu}"`. -/
theorem fmt_written_of_nat (n : Nat) (h : n < 2 ^ 64) :
    fmt_written (n : Int) = "\x7bwritten: " ++ toString n ++ "\x7d" := by
  unfold fmt_written
  have : ((n : Int) % 2 ^ 64).toNat = n := by omega
  rw [this]

/-- C3: a fetch session started with an open sink that receives connect, then
chunks whose writes are all complete (the sink has room for each chunk), then
the full reply with status 200 and the connection-closed event sends exactly
one report, the success report with the total number `B` of chunk bytes, has
appended exactly these bytes in arrival order to the sink, has closed the sink
and has released the session.  `B` is within the range of the `int64_t`
counter. -/
theorem C3_fetch_success (st : state) (d : List Nat) (cs : Int)
    (chunks : List (List Nat × Nat))
    (hsink : st.fp = some ⟨d, true⟩) (hzero : st.written = 0)
    (hfull : ∀ c ∈ chunks, c.1.length ≤ c.2)
    (hB : (chunk_bytes chunks).length < 2 ^ 63) :
    ((FetchSession.start st).run
        (.connect cs :: chunk_events chunks ++ [.reply 200, .close])).out =
      [.report (.response st.ri
          ("\x7bwritten: " ++ toString (chunk_bytes chunks).length ++ "\x7d")),
        .fclose, .free] ∧
    ((FetchSession.start st).run
        (.connect cs :: chunk_events chunks ++ [.reply 200, .close])).st.fp =
      some ⟨d ++ chunk_bytes chunks, false⟩ ∧
    ((FetchSession.start st).run
        (.connect cs :: chunk_events chunks ++ [.reply 200, .close])).freed = true := by
  have hsplit : (FetchSession.start st).run
      (.connect cs :: chunk_events chunks ++ [.reply 200, .close]) =
      ((((FetchSession.start st).deliver (.connect cs)).run (chunk_events chunks)).deliver
        (.reply 200)).deliver .close := by
    simp [FetchSession.run, List.foldl_append]
  obtain ⟨e1, e2, e3, _, e5, e6⟩ :=
    run_chunks_full chunks ((FetchSession.start st).deliver (.connect cs)) d
      (by simp [FetchSession.deliver, FetchSession.start, http_cb])
      (by simp [FetchSession.deliver, FetchSession.start, http_cb, hsink])
      (by simp [FetchSession.deliver, FetchSession.start, http_cb, hzero])
      (by simp [FetchSession.deliver, FetchSession.start, http_cb, hzero]; exact_mod_cast hB)
      hfull
  have hw : (((FetchSession.start st).deliver (.connect cs)).run (chunk_events chunks)).st.written
      = ((chunk_bytes chunks).length : Int) := by
    rw [e3]; simp [FetchSession.deliver, FetchSession.start, http_cb, hzero]
  have hri : (((FetchSession.start st).deliver (.connect cs)).run (chunk_events chunks)).st.ri
      = st.ri := by
    rw [e5]; simp [FetchSession.deliver, FetchSession.start, http_cb]
  have hout : (((FetchSession.start st).deliver (.connect cs)).run (chunk_events chunks)).out
      = [] := by
    rw [e6]; simp [FetchSession.deliver, FetchSession.start, http_cb]
  have hfmt := fmt_written_of_nat (chunk_bytes chunks).length (by omega)
  rw [hsplit]
  generalize ((FetchSession.start st).deliver (.connect cs)).run (chunk_events chunks) = w at *
  refine ⟨?_, ?_, ?_⟩ <;>
    simp [FetchSession.deliver, http_cb, e1, e2, hw, hri, hout, hfmt, fclose]

/-- Witness of C3: two chunks of two and one bytes into a fresh sink. -/
theorem C3_fetch_success_witness :
    ((FetchSession.start ⟨3, 0, 0, some ⟨[], true⟩⟩).run
        (.connect 0 :: chunk_events [([71, 49], 2), ([10], 5)] ++ [.reply 200, .close])).out =
      [.report (.response 3 "\x7bwritten: 3\x7d"), .fclose, .free] ∧
    ((FetchSession.start ⟨3, 0, 0, some ⟨[], true⟩⟩).run
        (.connect 0 :: chunk_events [([71, 49], 2), ([10], 5)] ++ [.reply 200, .close])).st.fp =
      some ⟨[71, 49, 10], false⟩ ∧
    ((FetchSession.start ⟨3, 0, 0, some ⟨[], true⟩⟩).run
        (.connect 0 :: chunk_events [([71, 49], 2), ([10], 5)] ++ [.reply 200, .close])).freed =
      true :=
  C3_fetch_success ⟨3, 0, 0, some ⟨[], true⟩⟩ [] 0 [([71, 49], 2), ([10], 5)] rfl rfl
    (by decide) (by decide)

/-- C4: on the connection-closed event `http_cb` sends exactly one report: if
the recorded status is 200 the success report whose body is `{written: n}`
with `n` the decimal rendering of `written` by the format `%llu`, and otherwise
the error report with the recorded status; the success report is sent if and
only if the status is 200; the sink, if there is one, is closed; and the
session is released, as the last effect. -/
theorem C4_close_reports_once (c : mg_connection) (st : state) :
    reportsOf (http_cb c .close st).2.2 =
      [if st.status = 200 then
          Report.response st.ri
            ("\x7bwritten: " ++ toString (st.written % 2 ^ 64).toNat ++ "\x7d")
        else Report.error st.ri st.status none] ∧
    (0 ≤ st.written → st.written < 2 ^ 64 → st.status = 200 →
      reportsOf (http_cb c .close st).2.2 =
        [Report.response st.ri ("\x7bwritten: " ++ toString st.written.toNat ++ "\x7d")]) ∧
    (Report.response st.ri ("\x7bwritten: " ++ toString (st.written % 2 ^ 64).toNat ++ "\x7d") ∈
        reportsOf (http_cb c .close st).2.2 ↔ st.status = 200) ∧
    (Report.error st.ri st.status none ∈ reportsOf (http_cb c .close st).2.2 ↔
      st.status ≠ 200) ∧
    (∀ f, st.fp = some f →
      (http_cb c .close st).2.1.fp = some ⟨f.bytes, false⟩ ∧
      Effect.fclose ∈ (http_cb c .close st).2.2) ∧
    (st.fp = none → (http_cb c .close st).2.1.fp = none ∧
      Effect.fclose ∉ (http_cb c .close st).2.2) ∧
    (http_cb c .close st).2.2.getLast? = some Effect.free ∧
    (∀ w : FetchSession, w.freed = false → (w.deliver .close).freed = true) := by
  have hrep : reportsOf (http_cb c .close st).2.2 =
      [if st.status = 200 then
          Report.response st.ri
            ("\x7bwritten: " ++ toString (st.written % 2 ^ 64).toNat ++ "\x7d")
        else Report.error st.ri st.status none] := by
    cases h : st.fp <;> simp [http_cb, reportsOf, h, fmt_written]
  refine ⟨hrep, ?_, ?_, ?_, ?_, ?_, ?_, ?_⟩
  · intro h0 h1 h200
    have hmod : st.written % 2 ^ 64 = st.written := Int.emod_eq_of_lt h0 h1
    rw [hrep, hmod]
    simp [h200]
  · rw [hrep]
    by_cases h2 : st.status = 200 <;> simp [h2]
  · rw [hrep]
    by_cases h2 : st.status = 200 <;> simp [h2]
  · intro f hf; simp [http_cb, hf, fclose]
  · intro hf; simp [http_cb, hf]
  · cases h : st.fp <;> simp [http_cb, h]
  · intro w hw
    cases h : w.st.fp <;> simp [FetchSession.deliver, http_cb, hw, h]

/-- C5, the code at the failing input: the first chunk is written short (two
bytes, room for one), so the status becomes 500 and teardown is requested; the
full-reply event that follows overwrites the status with 200, and the
connection-closed event sends a success report. -/
theorem C5_short_write_then_reply_reports_success :
    ((FetchSession.start ⟨3, 0, 0, some ⟨[], true⟩⟩).run [.connect 0, .chunk [71, 49] 1]).st.status
      = 500 ∧
    ((FetchSession.start ⟨3, 0, 0, some ⟨[], true⟩⟩).run
        [.connect 0, .chunk [71, 49] 1]).c.close_immediately = true ∧
    reportsOf ((FetchSession.start ⟨3, 0, 0, some ⟨[], true⟩⟩).run
        [.connect 0, .chunk [71, 49] 1, .reply 200, .close]).out =
      [.response 3 "\x7bwritten: 1\x7d"] := by
  decide

/-- C10, the code at the failing input: the destination is opened, the session
is allocated, and `mg_connect_http` rejects the URL.  The session is released
and the error is reported, but the destination stream is still open when the
handler returns. -/
theorem C10_malformed_url_leaves_sink_open :
    fetch_handler 3 (some "nohost") (some "job.gcode") ⟨true, true, false⟩ =
      { out := [.error 3 500 (some "malformed URL")]
        fp := some ⟨[], true⟩
        session := none
        allocated := 1
        connects := ["nohost"] } := by
  decide

/-- Witness of C4: a session with status 200 and five bytes written reports
`{written: 5}` and closes its sink. -/
theorem C4_close_reports_once_witness :
    reportsOf (http_cb ⟨false, false⟩ .close ⟨3, 200, 5, some ⟨[1], true⟩⟩).2.2 =
      [Report.response 3 "\x7bwritten: 5\x7d"] ∧
    (http_cb ⟨false, false⟩ .close ⟨3, 200, 5, some ⟨[1], true⟩⟩).2.1.fp = some ⟨[1], false⟩ :=
  ⟨((C4_close_reports_once ⟨false, false⟩ ⟨3, 200, 5, some ⟨[1], true⟩⟩).2.1
      (by decide) (by decide) rfl).trans (by decide),
   ((C4_close_reports_once ⟨false, false⟩ ⟨3, 200, 5, some ⟨[1], true⟩⟩).2.2.2.2.1 _ rfl).1⟩

/-- The reports of two effect lists in sequence. -/
theorem reportsOf_append (a b : List Effect) :
    reportsOf (a ++ b) = reportsOf a ++ reportsOf b := by
  simp [reportsOf, List.filterMap_append]

/-- The connection-closed event adds exactly one report to those of a live
session. -/
theorem reports_deliver_close (w : FetchSession) (hw : w.freed = false) :
    reportsOf (w.deliver .close).out = reportsOf w.out ++
      [if w.st.status = 200 then Report.response w.st.ri (fmt_written w.st.written)
        else Report.error w.st.ri w.st.status none] := by
  cases hfp : w.st.fp <;>
    simp [FetchSession.deliver, hw, http_cb, hfp, reportsOf_append] <;>
    simp [reportsOf]

/-- The error codes reported by a run stay within any set of codes that
contains 500, the status the session holds, and the status of every connect
and full-reply event of the run. -/
theorem run_error_codes (A : Int → Prop) (h500 : A 500) (evs : List HttpEvent) :
    ∀ w : FetchSession,
      (∀ rc, HttpEvent.reply rc ∈ evs → A rc) →
      (∀ cs, HttpEvent.connect cs ∈ evs → A cs) →
      (w.freed = false → A w.st.status) →
      (∀ ri code msg, Report.error ri code msg ∈ reportsOf w.out → A code) →
      ∀ ri code msg, Report.error ri code msg ∈ reportsOf (w.run evs).out → A code := by
  induction evs with
  | nil => intro w _ _ _ hout; simpa [FetchSession.run] using hout
  | cons e es ih =>
    intro w hr hc hst hout
    have hrun : w.run (e :: es) = (w.deliver e).run es := by simp [FetchSession.run]
    rw [hrun]
    apply ih (w.deliver e) (fun rc h => hr rc (by simp [h])) (fun cs h => hc cs (by simp [h]))
    · intro hf
      by_cases hw : w.freed = true
      · simp [FetchSession.deliver, hw] at hf
      · have hw' : w.freed = false := by simpa using hw
        cases e with
        | connect cs =>
          have : A cs := hc cs (by simp)
          simpa [FetchSession.deliver, hw', http_cb] using this
        | chunk body room =>
          have h1 : A w.st.status := hst hw'
          simp only [FetchSession.deliver, hw', http_cb]
          split_ifs <;> first | exact h1 | exact h500
        | reply rc =>
          have : A rc := hr rc (by simp)
          simpa [FetchSession.deliver, hw', http_cb] using this
        | close =>
          cases hfp : w.st.fp <;> simp [FetchSession.deliver, hw', http_cb, hfp] at hf
        | other ev => simpa [FetchSession.deliver, hw', http_cb] using hst hw'
    · intro ri code msg hmem
      by_cases hw : w.freed = true
      · exact hout ri code msg (by simpa [FetchSession.deliver, hw] using hmem)
      · have hw' : w.freed = false := by simpa using hw
        cases e with
        | connect cs =>
          exact hout ri code msg (by simpa [FetchSession.deliver, hw', http_cb] using hmem)
        | chunk body room =>
          exact hout ri code msg (by simpa [FetchSession.deliver, hw', http_cb] using hmem)
        | reply rc =>
          exact hout ri code msg (by simpa [FetchSession.deliver, hw', http_cb] using hmem)
        | other ev =>
          exact hout ri code msg (by simpa [FetchSession.deliver, hw', http_cb] using hmem)
        | close =>
          rw [reports_deliver_close w hw', List.mem_append] at hmem
          rcases hmem with h | h
          · exact hout ri code msg h
          · by_cases h200 : w.st.status = 200
            · simp [h200] at h
            · simp [h200] at h
              rw [h.2.1]; exact hst hw'

/-- C9 as stated fails: a connection that is refused (connect status -1) and
then closed, with no full-reply event, is reported with the error code -1,
which is neither 500 nor a status received in a full-reply event. -/
theorem C9_counterexample :
    ¬ (∀ ri code msg,
        Report.error ri code msg ∈
          reportsOf ((FetchSession.start ⟨3, 0, 0, some ⟨[], true⟩⟩).run
            [.connect (-1), .close]).out →
        code = 500 ∨ HttpEvent.reply code ∈ [HttpEvent.connect (-1), HttpEvent.close]) := by
  intro h
  have h1 := h 3 (-1) none (by decide)
  revert h1
  decide

/-! ## Relay engine: the line reader -/

/-- The characters taken by `fgets` are a prefix of the unread bytes. -/
theorem fgets_chars_take_drop (k : Nat) (bytes : List Nat) :
    fgets_chars k bytes ++ bytes.drop (fgets_chars k bytes).length = bytes := by
  induction k generalizing bytes with
  | zero => simp [fgets_chars]
  | succ k ih =>
    cases bytes with
    | nil => simp [fgets_chars]
    | cons b bs =>
      by_cases hb : b = 10
      · simp [fgets_chars, hb]
      · simp [fgets_chars, hb, ih bs]

/-- The reader stores at most `k` characters. -/
theorem fgets_chars_length_le (k : Nat) (bytes : List Nat) :
    (fgets_chars k bytes).length ≤ k := by
  induction k generalizing bytes with
  | zero => simp [fgets_chars]
  | succ k ih =>
    cases bytes with
    | nil => simp [fgets_chars]
    | cons b bs =>
      by_cases hb : b = 10
      · simp [fgets_chars, hb]
      · simp [fgets_chars, hb, ih bs]

/-- The reader takes at least one character when there is one. -/
theorem fgets_chars_ne_nil (k : Nat) (bytes : List Nat) (h : bytes ≠ []) :
    fgets_chars (k + 1) bytes ≠ [] := by
  cases bytes with
  | nil => exact absurd rfl h
  | cons b bs =>
    by_cases hb : b = 10 <;> simp [fgets_chars, hb]

/-- A line that can be read whole is what `fgets` returns when the stream
starts with it and it ends with a newline or with the file. -/
theorem fgets_chars_whole (l rest : List Nat) (k : Nat) (hne : l ≠ [])
    (hlen : l.length ≤ k) (hnl : 10 ∉ l.dropLast)
    (hend : l.getLast? = some 10 ∨ rest = []) :
    fgets_chars k (l ++ rest) = l := by
  induction l generalizing k with
  | nil => exact absurd rfl hne
  | cons b bs ih =>
    cases k with
    | zero => simp at hlen
    | succ k =>
      cases bs with
      | nil =>
        rcases hend with h | h
        · simp at h; simp [fgets_chars, h]
        · subst h
          by_cases hb : b = 10
          · simp [fgets_chars, hb]
          · cases k <;> simp [fgets_chars, hb]
      | cons c cs =>
        have hb : b ≠ 10 := by
          intro hb; apply hnl; simp [List.dropLast, hb]
        have := ih k (by simp) (by simpa using hlen)
          (by intro hmem; apply hnl; simp [List.dropLast] at hmem ⊢; right; exact hmem)
          (by simpa [List.getLast?_cons_cons] using hend)
        simp [fgets_chars, hb]
        simpa using this

/-- More fuel than bytes does not change the lines read. -/
theorem read_lines_fuel_stable (f1 : Nat) :
    ∀ (f2 : Nat) (bytes : List Nat), bytes.length ≤ f1 → bytes.length ≤ f2 →
      read_lines_fuel f1 bytes = read_lines_fuel f2 bytes := by
  induction f1 with
  | zero =>
    intro f2 bytes h1 _
    have : bytes = [] := List.length_eq_zero.mp (by omega)
    subst this
    cases f2 <;> simp [read_lines_fuel]
  | succ f1 ih =>
    intro f2 bytes h1 h2
    cases f2 with
    | zero =>
      have : bytes = [] := List.length_eq_zero.mp (by omega)
      subst this
      simp [read_lines_fuel]
    | succ f2 =>
      by_cases hb : bytes = []
      · simp [read_lines_fuel, hb]
      · have hpos : 0 < (fgets_chars (MAX_GCODE_LINE_LENGTH - 1) bytes).length :=
          List.length_pos.mpr (fgets_chars_ne_nil _ bytes hb)
        have hlen : 0 < bytes.length := List.length_pos.mpr hb
        simp only [read_lines_fuel, hb, if_false]
        rw [ih f2 _ (by simp; omega) (by simp; omega)]

/-- No line is read from an exhausted source. -/
theorem read_lines_nil : read_lines [] = [] := by
  simp [read_lines, read_lines_fuel]

/-- The first line read from a source that is not exhausted, and the rest. -/
theorem read_lines_cons (bytes : List Nat) (h : bytes ≠ []) :
    read_lines bytes =
      fgets_chars (MAX_GCODE_LINE_LENGTH - 1) bytes ::
        read_lines (bytes.drop (fgets_chars (MAX_GCODE_LINE_LENGTH - 1) bytes).length) := by
  have hpos : 0 < (fgets_chars (MAX_GCODE_LINE_LENGTH - 1) bytes).length :=
    List.length_pos.mpr (fgets_chars_ne_nil _ bytes h)
  have hlen : 0 < bytes.length := List.length_pos.mpr h
  unfold read_lines
  obtain ⟨n, hn⟩ : ∃ n, bytes.length = n + 1 := ⟨bytes.length - 1, by omega⟩
  rw [hn]
  simp only [read_lines_fuel, h, if_false]
  rw [read_lines_fuel_stable n _ _ (by simp; omega) (le_refl _)]

/-! ## Relay engine: single steps -/

/-- The reports of two output lists in sequence. -/
theorem reports_in_append (a b : List Output) :
    reports_in (a ++ b) = reports_in a ++ reports_in b := by
  simp [reports_in, List.filterMap_append]

/-- The writes of two output lists in sequence. -/
theorem writes_in_append (a b : List Output) :
    writes_in (a ++ b) = writes_in a ++ writes_in b := by
  simp [writes_in, List.filterMap_append]

/-- Sending lines sends no report. -/
theorem reports_in_lines_outputs (ls : List (List Nat)) : reports_in (lines_outputs ls) = [] := by
  induction ls with
  | nil => rfl
  | cons l ls ih =>
    rw [lines_outputs, reports_in_append, ih]
    simp [reports_in, line_outputs]

/-- The writes of a sequence of lines: each line as a C string followed by the
terminator. -/
theorem writes_in_lines_outputs (ls : List (List Nat)) :
    writes_in (lines_outputs ls) = ls.map fun l => cstr l ++ CRLF := by
  induction ls with
  | nil => rfl
  | cons l ls ih =>
    rw [lines_outputs, writes_in_append, ih]
    simp [writes_in, line_outputs]

/-- Once the timer is cancelled and notifications are disabled no event reaches
a handler. -/
theorem step_dead (s : Relay) (e : RelayEvent) (ht : s.timers = [])
    (hrx : s.rx_enabled = false) : s.step e = s := by
  cases e <;> simp [Relay.step, ht, hrx]

/-- No run changes a state whose timer is cancelled and whose notifications are
disabled. -/
theorem run_dead (es : List RelayEvent) (s : Relay) (ht : s.timers = [])
    (hrx : s.rx_enabled = false) : s.run es = s := by
  induction es with
  | nil => rfl
  | cons e es ih =>
    have : s.run (e :: es) = (s.step e).run es := by simp [Relay.run]
    rw [this, step_dead s e ht hrx, ih]

/-- A run splits at every point. -/
theorem run_append (s : Relay) (es fs : List RelayEvent) :
    s.run (es ++ fs) = (s.run es).run fs := by
  simp [Relay.run, List.foldl_append]

/-- While the countdown lasts, ticks only decrement it. -/
theorem run_ticks (k : Nat) :
    ∀ s : Relay, s.timers ≠ [] → (k : Int) ≤ s.timeout →
      s.run (List.replicate k .tick) = { s with timeout := s.timeout - k } := by
  induction k with
  | zero => intro s _ _; simp [Relay.run]
  | succ k ih =>
    intro s ht hk
    have hpos : s.timeout > 0 := by omega
    have hstep : s.step .tick = { s with timeout := s.timeout - 1 } := by
      simp [Relay.step, ht, timer_cb, hpos]
    have : s.run (List.replicate (k + 1) .tick) = (s.step .tick).run (List.replicate k .tick) := by
      simp [Relay.run, List.replicate_succ]
    rw [this, hstep, ih _ (by simpa using ht) (by simp; omega)]
    simp
    omega

/-- The tick that finds the countdown at zero reports the timeout, cancels the
timer of the session and disables notifications. -/
theorem tick_expired (s : Relay) (ht : s.timers ≠ []) (h0 : s.timeout = 0) :
    s.step .tick =
      { s with
        out := s.out ++ [.report (.response s.ri STATUS_TIMEOUT)]
        timers := s.timers.erase s.timer_id
        rx_enabled := false } := by
  simp [Relay.step, ht, timer_cb, h0]

/-- The C string made by `strcat` from a line and the terminator is sent
whole. -/
theorem strcat_crlf (line : List Nat) :
    strcat line CRLF = cstr line ++ CRLF ∧
    (cstr line ++ CRLF).take (strlen (cstr line ++ CRLF)) = cstr line ++ CRLF := by
  have h1 : cstr CRLF = CRLF := by decide
  have h2 : cstr (cstr line ++ CRLF) = cstr line ++ CRLF := by
    unfold cstr
    rw [List.takeWhile_append_of_pos (fun a ha => by simpa using List.mem_takeWhile_imp ha)]
    have : List.takeWhile (fun b => decide (b ≠ 0)) CRLF = CRLF := by decide
    rw [this]
  simp [strcat, strlen, h1, h2]

/-- Reading and sending the next line of a source that is not exhausted. -/
theorem send_line_some (s : Relay) (rest : List Nat) (hfp : s.fp = some ⟨rest, true⟩)
    (hne : rest ≠ []) :
    send_line s = some { s with
      fp := some ⟨rest.drop (fgets_chars (MAX_GCODE_LINE_LENGTH - 1) rest).length, true⟩
      gcode_buffer := cstr (fgets_chars (MAX_GCODE_LINE_LENGTH - 1) rest) ++ CRLF
      out := s.out ++ line_outputs (fgets_chars (MAX_GCODE_LINE_LENGTH - 1) rest) } := by
  have hl : fgets_chars (MAX_GCODE_LINE_LENGTH - 1) rest ≠ [] := fgets_chars_ne_nil _ rest hne
  obtain ⟨e2, e1⟩ := strcat_crlf (fgets_chars (MAX_GCODE_LINE_LENGTH - 1) rest)
  simp only [send_line, hfp, fgets, if_true, hl, if_false, e2, e1, line_outputs]

/-- Nothing is read from an exhausted source. -/
theorem send_line_none (s : Relay) (hfp : s.fp = some ⟨[], true⟩) : send_line s = none := by
  simp [send_line, hfp, fgets, fgets_chars, MAX_GCODE_LINE_LENGTH]

/-- The token arriving in one receive event into a reset buffer is found. -/
theorem store_token (s : Relay) (hbuf : s.response_buffer = List.replicate RESPONSE_BUFFER_SIZE 0)
    (hp : s.p = 0) :
    store_rx OK_TOKEN s =
      { s with
        response_buffer := OK_TOKEN ++ List.replicate 16 0
        p := 4 } ∧
    ack_found (store_rx OK_TOKEN s) = true := by
  constructor
  · simp [store_rx, hbuf, hp, OK_TOKEN, RESPONSE_BUFFER_SIZE, strncpy_bytes, cstr, poke,
      poke_past, List.replicate]
  · simp [ack_found, store_rx, hbuf, hp, OK_TOKEN, RESPONSE_BUFFER_SIZE, strncpy_bytes, cstr,
      poke, poke_past, List.replicate, strstr]

/-- The C string in memory stops at the first NUL byte: what follows an array
that holds a NUL byte is not read. -/
theorem cstr_append_of_nul (a b : List Nat) (h : 0 ∈ a) : cstr (a ++ b) = cstr a := by
  induction a with
  | nil => simp at h
  | cons x xs ih =>
    by_cases hx : x = 0
    · subst hx; simp [cstr]
    · have hxs : 0 ∈ xs := by
        rcases List.mem_cons.mp h with h1 | h1
        · exact absurd h1.symm hx
        · exact h1
      have := ih hxs
      simpa [cstr, hx] using this

/-- While the array holds a NUL byte the scanner stays inside the array. -/
theorem ack_found_of_nul (s : Relay) (h : 0 ∈ s.response_buffer) :
    ack_found s = strstr (cstr s.response_buffer) OK_TOKEN := by
  rw [ack_found, cstr_append_of_nul _ _ h]

/-- The waiting condition does not depend on the countdown. -/
theorem Awaiting.with_timeout {s : Relay} {rest : List Nat} (h : Awaiting s rest) (t : Int) :
    Awaiting { s with timeout := t } rest :=
  ⟨h.fp, h.buf, h.p, h.timers, h.rx⟩

/-- An acknowledgment while the source has a line left: the line is sent, the
buffer stays reset and the countdown restarts at the steady-state budget. -/
theorem ack_more (s : Relay) (rest : List Nat) (ha : Awaiting s rest) (hne : rest ≠ []) :
    s.step (.rx OK_TOKEN) =
      { s with
        fp := some ⟨rest.drop (fgets_chars (MAX_GCODE_LINE_LENGTH - 1) rest).length, true⟩
        gcode_buffer := cstr (fgets_chars (MAX_GCODE_LINE_LENGTH - 1) rest) ++ CRLF
        out := s.out ++ line_outputs (fgets_chars (MAX_GCODE_LINE_LENGTH - 1) rest)
        timeout := 100 } := by
  obtain ⟨hfp, hbuf, hp, _, hrx⟩ := ha
  obtain ⟨hst, hfound⟩ := store_token s hbuf hp
  have hsend := send_line_some (store_rx OK_TOKEN s) rest (by rw [hst]; exact hfp) hne
  have hlen : OK_TOKEN.length > 0 := by decide
  simp only [Relay.step, hrx, if_true, uart_dispatcher, hlen, hfound, hsend]
  rw [hst]
  cases s
  simp only [] at hbuf hp
  subst hbuf hp
  simp [TIMEOUT_FOLLOWING]
  simpa using hrx

/-- An acknowledgment when the source is exhausted: the source is closed, the
OK report is sent, the timer is cancelled and notifications are disabled. -/
theorem ack_done (s : Relay) (ha : Awaiting s []) :
    s.step (.rx OK_TOKEN) =
      { s with
        response_buffer := OK_TOKEN ++ List.replicate 16 0
        p := 4
        fp := some ⟨[], false⟩
        out := s.out ++ [.report (.response s.ri STATUS_OK)]
        timers := []
        rx_enabled := false
        timeout := 100 } := by
  obtain ⟨hst, hfound⟩ := store_token s ha.buf ha.p
  have hsend := send_line_none (store_rx OK_TOKEN s) (by rw [hst]; exact ha.fp)
  have hlen : OK_TOKEN.length > 0 := by decide
  simp only [Relay.step, ha.rx, if_true, uart_dispatcher, hlen, hfound, hsend]
  rw [hst]
  simp [TIMEOUT_FOLLOWING, ha.fp, ha.timers, fclose]

/-! ## Relay engine: runs -/

/-- What `dl_handler` sets up when the source can be opened: the first line, if
there is one, is sent; then the engine waits with the initial budget. -/
theorem dl_start (s0 : Relay) (ri : Nat) (path : String) (fs : String → Option (List Nat))
    (content : List Nat) (hfs : fs path = some content) (h0 : s0.timers = []) :
    ∃ rest, Awaiting (dl_handler ri (some path) fs s0) rest ∧
      read_lines content = (read_lines content).take 1 ++ read_lines rest ∧
      (dl_handler ri (some path) fs s0).out =
        s0.out ++ lines_outputs ((read_lines content).take 1) ∧
      (dl_handler ri (some path) fs s0).timeout = 500 ∧
      (dl_handler ri (some path) fs s0).ri = ri := by
  by_cases hc : content = []
  · subst hc
    refine ⟨[], ⟨?_, ?_, ?_, ?_, ?_⟩, ?_, ?_, ?_, ?_⟩ <;>
      simp [dl_handler, hfs, send_line, fgets, fgets_chars, MAX_GCODE_LINE_LENGTH, h0,
        read_lines_nil, lines_outputs, TIMEOUT_INITIAL]
  · have hsend := send_line_some
      { s0 with
        p := 0
        response_buffer := List.replicate RESPONSE_BUFFER_SIZE 0
        fp := some { bytes := content, isOpen := true }
        ri := ri } content rfl hc
    have hdl : dl_handler ri (some path) fs s0 =
        { s0 with
          p := 0
          response_buffer := List.replicate RESPONSE_BUFFER_SIZE 0
          fp := some ⟨content.drop (fgets_chars (MAX_GCODE_LINE_LENGTH - 1) content).length, true⟩
          ri := ri
          gcode_buffer := cstr (fgets_chars (MAX_GCODE_LINE_LENGTH - 1) content) ++ CRLF
          out := s0.out ++ line_outputs (fgets_chars (MAX_GCODE_LINE_LENGTH - 1) content)
          timer_id := s0.next_timer
          timers := s0.timers ++ [s0.next_timer]
          next_timer := s0.next_timer + 1
          timeout := TIMEOUT_INITIAL / 10
          rx_enabled := true } := by
      simp only [dl_handler, hfs, hsend, Option.getD_some]
    rw [hdl]
    refine ⟨content.drop (fgets_chars (MAX_GCODE_LINE_LENGTH - 1) content).length,
      ⟨?_, ?_, ?_, ?_, ?_⟩, ?_, ?_, ?_, ?_⟩ <;>
      simp [h0, TIMEOUT_INITIAL, read_lines_cons content hc, lines_outputs]

/-- The events of a schedule in two parts. -/
theorem acked_append (ks js : List Nat) : acked (ks ++ js) = acked ks ++ acked js := by
  induction ks with
  | nil => rfl
  | cons k ks ih => simp [acked, ih]

/-- The outputs of lines in two parts. -/
theorem lines_outputs_append (ls ms : List (List Nat)) :
    lines_outputs (ls ++ ms) = lines_outputs ls ++ lines_outputs ms := by
  induction ls with
  | nil => rfl
  | cons l ls ih => simp [lines_outputs, ih]

/-- Only an exhausted source yields no line. -/
theorem read_lines_eq_nil (bytes : List Nat) (h : read_lines bytes = []) : bytes = [] := by
  by_contra hne
  rw [read_lines_cons bytes hne] at h
  exact absurd h (by simp)

/-- Ticks within the budget followed by an acknowledgment, while the source has
a line left. -/
theorem ticks_ack_more (s : Relay) (rest : List Nat) (k : Nat) (ha : Awaiting s rest)
    (hne : rest ≠ []) (hk : (k : Int) ≤ s.timeout) :
    Awaiting (s.run (List.replicate k .tick ++ [.rx OK_TOKEN]))
      (rest.drop (fgets_chars (MAX_GCODE_LINE_LENGTH - 1) rest).length) ∧
    (s.run (List.replicate k .tick ++ [.rx OK_TOKEN])).timeout = 100 ∧
    (s.run (List.replicate k .tick ++ [.rx OK_TOKEN])).out =
      s.out ++ line_outputs (fgets_chars (MAX_GCODE_LINE_LENGTH - 1) rest) ∧
    (s.run (List.replicate k .tick ++ [.rx OK_TOKEN])).ri = s.ri := by
  have hticks := run_ticks k s (by rw [ha.timers]; simp) hk
  have hstep := ack_more _ rest (ha.with_timeout (s.timeout - k)) hne
  have hrun : s.run (List.replicate k .tick ++ [.rx OK_TOKEN]) =
      (s.run (List.replicate k .tick)).step (.rx OK_TOKEN) := by
    rw [run_append]; simp [Relay.run]
  rw [hrun, hticks, hstep]
  refine ⟨⟨rfl, ha.buf, ha.p, ha.timers, ha.rx⟩, rfl, rfl, rfl⟩

/-- Ticks within the budget followed by an acknowledgment, when the source is
exhausted. -/
theorem ticks_ack_done (s : Relay) (k : Nat) (ha : Awaiting s [])
    (hk : (k : Int) ≤ s.timeout) :
    (s.run (List.replicate k .tick ++ [.rx OK_TOKEN])).out =
      s.out ++ [.report (.response s.ri STATUS_OK)] ∧
    (s.run (List.replicate k .tick ++ [.rx OK_TOKEN])).timers = [] ∧
    (s.run (List.replicate k .tick ++ [.rx OK_TOKEN])).rx_enabled = false ∧
    (s.run (List.replicate k .tick ++ [.rx OK_TOKEN])).fp = some ⟨[], false⟩ := by
  have hticks := run_ticks k s (by rw [ha.timers]; simp) hk
  have hstep := ack_done _ (ha.with_timeout (s.timeout - k))
  have hrun : s.run (List.replicate k .tick ++ [.rx OK_TOKEN]) =
      (s.run (List.replicate k .tick)).step (.rx OK_TOKEN) := by
    rw [run_append]; simp [Relay.run]
  rw [hrun, hticks, hstep]
  exact ⟨rfl, rfl, rfl, rfl⟩

/-- A controller that acknowledges in time, for as many acknowledgments as the
source has lines left: every acknowledgment sends the next line and nothing
else is emitted. -/
theorem run_acked_lines (ks : List Nat) :
    ∀ (s : Relay) (rest : List Nat), Awaiting s rest → 100 ≤ s.timeout →
      (∀ k ∈ ks, k < 100) → ks.length ≤ (read_lines rest).length →
      ∃ rest1, Awaiting (s.run (acked ks)) rest1 ∧ 100 ≤ (s.run (acked ks)).timeout ∧
        read_lines rest1 = (read_lines rest).drop ks.length ∧
        (s.run (acked ks)).out = s.out ++ lines_outputs ((read_lines rest).take ks.length) ∧
        (s.run (acked ks)).ri = s.ri := by
  induction ks with
  | nil =>
    intro s rest ha ht _ _
    exact ⟨rest, ha, ht, by simp, by simp [acked, Relay.run, lines_outputs], rfl⟩
  | cons k ks ih =>
    intro s rest ha ht hks hlen
    have hne : rest ≠ [] := by
      intro h; subst h; rw [read_lines_nil] at hlen; simp at hlen
    have hk : k < 100 := hks k (by simp)
    obtain ⟨a1, a2, a3, a4⟩ := ticks_ack_more s rest k ha hne (by omega)
    have hrun : s.run (acked (k :: ks)) =
        (s.run (List.replicate k .tick ++ [.rx OK_TOKEN])).run (acked ks) := by
      rw [← run_append]; simp [acked]
    rw [read_lines_cons rest hne] at hlen ⊢
    obtain ⟨rest1, b1, b2, b3, b4, b5⟩ :=
      ih _ _ a1 (by omega) (fun j hj => hks j (by simp [hj])) (by simpa using hlen)
    refine ⟨rest1, ?_, ?_, ?_, ?_, ?_⟩
    · rw [hrun]; exact b1
    · rw [hrun]; exact b2
    · rw [b3]; simp
    · rw [hrun, b4, a3]; simp [lines_outputs]
    · rw [hrun, b5, a4]

/-- The lines of a well-formed source are what the reader returns. -/
theorem read_lines_source (ls : List (List Nat)) (h : source_lines ls) :
    read_lines ls.flatten = ls := by
  induction ls with
  | nil => simpa using read_lines_nil
  | cons l ls ih =>
    cases ls with
    | nil =>
      obtain ⟨hne, hlen, _, hnl⟩ := h
      have hw := fgets_chars_whole l [] (MAX_GCODE_LINE_LENGTH - 1) hne hlen hnl (Or.inr rfl)
      simp only [List.append_nil] at hw
      have : [l].flatten = l := by simp
      rw [this, read_lines_cons l hne, hw]
      simp [read_lines_nil]
    | cons m ms =>
      obtain ⟨⟨hne, hlen, _, hnl⟩, hlast, hrest⟩ := h
      have hw := fgets_chars_whole l (m :: ms).flatten (MAX_GCODE_LINE_LENGTH - 1) hne hlen hnl
        (Or.inl hlast)
      have hflat : (l :: m :: ms).flatten = l ++ (m :: ms).flatten := by simp
      have hne2 : l ++ (m :: ms).flatten ≠ [] := by simp [hne]
      rw [hflat, read_lines_cons _ hne2, hw]
      simp only [List.drop_left]
      rw [ih hrest]

/-- A line without a NUL byte is its own C string. -/
theorem cstr_of_no_nul (l : List Nat) (h : 0 ∉ l) : cstr l = l := by
  unfold cstr
  rw [List.takeWhile_eq_self_iff]
  intro x hx
  have : x ≠ 0 := fun h0 => h (h0 ▸ hx)
  simpa using this

/-- The relay of a source that has a line, acknowledged in time after every
line, described by the lines the reader returns: all lines are sent in order,
then the OK report; the report is emitted by the last event, the acknowledgment
of the last line. -/
theorem relay_complete (s0 : Relay) (ri : Nat) (path : String)
    (fs : String → Option (List Nat)) (content : List Nat) (ks : List Nat)
    (hfs : fs path = some content) (h0 : s0.timers = [])
    (hks : ks.length = (read_lines content).length) (h1 : 1 ≤ ks.length)
    (hk : ∀ k ∈ ks, k < 100) :
    ((dl_handler ri (some path) fs s0).run (acked ks)).out =
      s0.out ++ lines_outputs (read_lines content) ++ [.report (.response ri STATUS_OK)] ∧
    ((dl_handler ri (some path) fs s0).run (acked ks)).timers = [] ∧
    ((dl_handler ri (some path) fs s0).run (acked ks)).rx_enabled = false ∧
    ((dl_handler ri (some path) fs s0).run (acked ks)).fp = some ⟨[], false⟩ ∧
    ∀ pre, acked ks = pre ++ [.rx OK_TOKEN] →
      ((dl_handler ri (some path) fs s0).run pre).out =
        s0.out ++ lines_outputs (read_lines content) := by
  obtain ⟨rest, hA, hrl, hout, hto, hri⟩ := dl_start s0 ri path fs content hfs h0
  obtain ⟨js, k, rfl⟩ : ∃ js k, ks = js ++ [k] := by
    rcases List.eq_nil_or_concat ks with h | ⟨js, k, h⟩
    · subst h; simp at h1
    · exact ⟨js, k, by rw [h, List.concat_eq_append]⟩
  have htake : ((read_lines content).take 1).length = 1 := by
    rw [List.length_take]; simp at hks; omega
  have hjs : js.length = (read_lines rest).length := by
    have := congrArg List.length hrl
    rw [List.length_append, htake] at this
    simp at hks; omega
  obtain ⟨rest1, b1, b2, b3, b4, b5⟩ :=
    run_acked_lines js _ rest hA (by omega) (fun j hj => hk j (by simp [hj])) (le_of_eq hjs)
  have hrest1 : rest1 = [] := read_lines_eq_nil rest1 (by rw [b3, hjs]; simp)
  subst hrest1
  have hkk : k < 100 := hk k (by simp)
  obtain ⟨c1, c2, c3, c4⟩ := ticks_ack_done _ k b1 (by omega)
  have hev : acked (js ++ [k]) = acked js ++ (List.replicate k .tick ++ [.rx OK_TOKEN]) := by
    rw [acked_append]; simp [acked]
  have houtjs : ((dl_handler ri (some path) fs s0).run (acked js)).out =
      s0.out ++ lines_outputs (read_lines content) := by
    rw [b4, hout, hjs, List.take_length]
    conv_rhs => rw [hrl]
    rw [lines_outputs_append, List.append_assoc]
  rw [hev, run_append]
  refine ⟨?_, c2, c3, c4, ?_⟩
  · rw [c1, houtjs, b5, hri]
  · intro pre hpre
    have hpre2 : pre = acked js ++ List.replicate k .tick := by
      have : (acked js ++ List.replicate k .tick) ++ [RelayEvent.rx OK_TOKEN] =
          pre ++ [RelayEvent.rx OK_TOKEN] := by
        rw [← hpre, List.append_assoc]
      exact (List.append_cancel_right this).symm
    rw [hpre2, run_append, run_ticks k _ (by rw [b1.timers]; simp) (by omega)]
    exact houtjs

/-! ## Relay engine: the claims -/

/-- C1: a source of `L ≥ 1` lines, each read whole and free of NUL bytes, is
relayed by `dl_handler` to a controller that answers every line with the token
`OK\r\n` in one receive event after fewer than 100 ticks (`ks` lists the ticks
before each of the `L` acknowledgments).  The run sends exactly one report, the
report is `{"Status": "OK"}`, it follows the outputs of all `L` lines, the
timer is then cancelled and notifications are disabled; and the report is
emitted by the last event, the acknowledgment of the `L`-th line: before that
event all `L` lines are written and no report is sent. -/
theorem C1_relay_acknowledged (s0 : Relay) (ri : Nat) (path : String)
    (fs : String → Option (List Nat)) (ls : List (List Nat)) (ks : List Nat)
    (hfs : fs path = some ls.flatten) (h0 : s0.timers = []) (hls : source_lines ls)
    (hL : 1 ≤ ls.length) (hks : ks.length = ls.length) (hk : ∀ k ∈ ks, k < 100) :
    ((dl_handler ri (some path) fs s0).run (acked ks)).reports =
      s0.reports ++ [.response ri STATUS_OK] ∧
    ((dl_handler ri (some path) fs s0).run (acked ks)).out =
      s0.out ++ lines_outputs ls ++ [.report (.response ri STATUS_OK)] ∧
    ((dl_handler ri (some path) fs s0).run (acked ks)).timers = [] ∧
    ((dl_handler ri (some path) fs s0).run (acked ks)).rx_enabled = false ∧
    ∀ pre, acked ks = pre ++ [.rx OK_TOKEN] →
      ((dl_handler ri (some path) fs s0).run pre).out = s0.out ++ lines_outputs ls ∧
      ((dl_handler ri (some path) fs s0).run pre).reports = s0.reports := by
  have hrl := read_lines_source ls hls
  obtain ⟨e1, e2, e3, _, e5⟩ :=
    relay_complete s0 ri path fs ls.flatten ks hfs h0 (by rw [hrl, hks]) (by omega) hk
  rw [hrl] at e1 e5
  refine ⟨?_, e1, e2, e3, ?_⟩
  · rw [Relay.reports, e1, reports_in_append, reports_in_append, reports_in_lines_outputs]
    simp [Relay.reports, reports_in]
  · intro pre hpre
    refine ⟨e5 pre hpre, ?_⟩
    simp [Relay.reports, e5 pre hpre, reports_in_append, reports_in_lines_outputs]

/-- Witness of C1: a source of two lines, acknowledged after three ticks and at
once. -/
theorem C1_relay_acknowledged_witness :
    ((dl_handler 7 (some "job.gcode") (fun _ => some [71, 49, 10, 71, 50, 10]) Relay.boot).run
      (acked [3, 0])).reports = Relay.boot.reports ++ [.response 7 STATUS_OK] :=
  (C1_relay_acknowledged Relay.boot 7 "job.gcode" (fun _ => some [71, 49, 10, 71, 50, 10])
    [[71, 49, 10], [71, 50, 10]] [3, 0] rfl rfl
    (by simp [source_lines, whole_line, MAX_GCODE_LINE_LENGTH]) (by decide) rfl
    (by decide)).1

set_option maxRecDepth 100000 in
/-- C2 as stated fails: when the 500 ticks of the initial budget have elapsed
without a receive event, no report has been sent yet, the timer is still armed
and notifications are still enabled. -/
theorem C2_counterexample :
    ((dl_handler 7 (some "job.gcode") (fun _ => some [71, 49, 10]) Relay.boot).run
      (List.replicate 500 .tick)).reports = [] ∧
    ((dl_handler 7 (some "job.gcode") (fun _ => some [71, 49, 10]) Relay.boot).run
      (List.replicate 500 .tick)).timers = [1] ∧
    ((dl_handler 7 (some "job.gcode") (fun _ => some [71, 49, 10]) Relay.boot).run
      (List.replicate 500 .tick)).rx_enabled = true := by
  decide

/-- A run followed by one more event. -/
theorem run_snoc (s : Relay) (es : List RelayEvent) (e : RelayEvent) :
    s.run (es ++ [e]) = (s.run es).step e := by
  simp [Relay.run]

/-- C2, amended: after `dl_handler` has started a relay and no receive event
occurs, the 500 ticks of the initial budget bring the countdown to zero
without any report; the next tick, the 501st, sends exactly one
`{"Status": "TIMEOUT"}` report, cancels the timer and disables notifications;
and whatever events follow, no further report, in particular no OK report, is
sent. -/
theorem C2_timeout_on_next_tick (s0 : Relay) (ri : Nat) (path : String)
    (fs : String → Option (List Nat)) (content : List Nat)
    (hfs : fs path = some content) (h0 : s0.timers = []) :
    ((dl_handler ri (some path) fs s0).run (List.replicate 500 .tick)).reports = s0.reports ∧
    ((dl_handler ri (some path) fs s0).run (List.replicate 500 .tick)).timeout = 0 ∧
    ((dl_handler ri (some path) fs s0).run (List.replicate 501 .tick)).reports =
      s0.reports ++ [.response ri STATUS_TIMEOUT] ∧
    ((dl_handler ri (some path) fs s0).run (List.replicate 501 .tick)).timers = [] ∧
    ((dl_handler ri (some path) fs s0).run (List.replicate 501 .tick)).rx_enabled = false ∧
    ∀ es, (((dl_handler ri (some path) fs s0).run (List.replicate 501 .tick)).run es).reports =
      s0.reports ++ [.response ri STATUS_TIMEOUT] := by
  obtain ⟨rest, hA, _, hout, hto, hri⟩ := dl_start s0 ri path fs content hfs h0
  have hne : (dl_handler ri (some path) fs s0).timers ≠ [] := by rw [hA.timers]; simp
  have h500 := run_ticks 500 (dl_handler ri (some path) fs s0) hne (by rw [hto]; norm_num)
  have hrep : (dl_handler ri (some path) fs s0).reports = s0.reports := by
    rw [Relay.reports, hout, reports_in_append, reports_in_lines_outputs]
    simp [Relay.reports]
  have hsplit : List.replicate 501 RelayEvent.tick = List.replicate 500 .tick ++ [.tick] := by
    rw [List.replicate_succ']
  have hexp := tick_expired ((dl_handler ri (some path) fs s0).run (List.replicate 500 .tick))
    (by rw [h500]; exact hne) (by rw [h500]; simp [hto])
  have h501 : (dl_handler ri (some path) fs s0).run (List.replicate 501 .tick) =
      ((dl_handler ri (some path) fs s0).run (List.replicate 500 .tick)).step .tick := by
    rw [hsplit]; exact run_snoc _ _ _
  have hr501 : ((dl_handler ri (some path) fs s0).run (List.replicate 501 .tick)).reports =
      s0.reports ++ [.response ri STATUS_TIMEOUT] := by
    rw [h501, hexp, h500]
    simp only [Relay.reports] at hrep ⊢
    rw [reports_in_append, hrep, hri]
    simp [reports_in]
  have ht501 : ((dl_handler ri (some path) fs s0).run (List.replicate 501 .tick)).timers = [] := by
    rw [h501, hexp, h500]; simp [hA.timers]
  have hx501 : ((dl_handler ri (some path) fs s0).run (List.replicate 501 .tick)).rx_enabled
      = false := by
    rw [h501, hexp]
  refine ⟨?_, ?_, hr501, ht501, hx501, ?_⟩
  · rw [h500]; exact hrep
  · rw [h500]; simp [hto]
  · intro es
    rw [run_dead es _ ht501 hx501, hr501]

/-- Witness of C2, amended: the relay of a one-line file from the boot state. -/
theorem C2_timeout_on_next_tick_witness :
    ((dl_handler 7 (some "job.gcode") (fun _ => some [71, 49, 10]) Relay.boot).run
      (List.replicate 501 .tick)).reports = Relay.boot.reports ++ [.response 7 STATUS_TIMEOUT] :=
  (C2_timeout_on_next_tick Relay.boot 7 "job.gcode" (fun _ => some [71, 49, 10])
    [71, 49, 10] rfl rfl).2.2.1

/-- The two parts of a split token. -/
theorem token_splits (a b : List Nat) (hab : a ++ b = OK_TOKEN) :
    (a = [] ∧ b = [79, 75, 13, 10]) ∨ (a = [79] ∧ b = [75, 13, 10]) ∨
    (a = [79, 75] ∧ b = [13, 10]) ∨ (a = [79, 75, 13] ∧ b = [10]) ∨
    (a = [79, 75, 13, 10] ∧ b = []) := by
  rcases a with _ | ⟨a1, _ | ⟨a2, _ | ⟨a3, _ | ⟨a4, _ | ⟨a5, a⟩⟩⟩⟩⟩ <;>
    simp [OK_TOKEN] at hab <;> simp [hab]

/-- C8: from a freshly reset response buffer, for every way of splitting the
token `OK\r\n` into two consecutive receive events, the state after the two
events, with everything emitted, equals the state after one receive event that
delivers the whole token; the scanner reports a match in exactly one of the two
events, and it reports a match in the single event. -/
theorem C8_split_token (s : Relay) (a b : List Nat) (hab : a ++ b = OK_TOKEN)
    (hbuf : s.response_buffer = List.replicate RESPONSE_BUFFER_SIZE 0) (hp : s.p = 0)
    (hrx : s.rx_enabled = true) :
    (s.step (.rx a)).step (.rx b) = s.step (.rx OK_TOKEN) ∧
    (ack_detected a s != ack_detected b (s.step (.rx a))) = true ∧
    ack_detected OK_TOKEN s = true := by
  obtain ⟨ri, fp, tid, gb, rb, p, t, ov, tm, nt, rx, out⟩ := s
  simp only at hbuf hp hrx
  subst hbuf hp hrx
  rcases token_splits a b hab with h | h | h | h | h <;> obtain ⟨rfl, rfl⟩ := h <;>
    simp [Relay.step, uart_dispatcher, store_rx, ack_found, ack_detected, strncpy_bytes, cstr,
      poke, poke_past, strstr, OK_TOKEN, RESPONSE_BUFFER_SIZE, List.replicate] <;>
    decide

/-- Witness of C8: the token split as `O` and `K\r\n` after a relay has been
started from the boot state. -/
theorem C8_split_token_witness :
    ((dl_handler 7 (some "job.gcode") (fun _ => some [71, 49, 10]) Relay.boot).step
        (.rx [79])).step (.rx [75, 13, 10]) =
      (dl_handler 7 (some "job.gcode") (fun _ => some [71, 49, 10]) Relay.boot).step
        (.rx OK_TOKEN) :=
  (C8_split_token (dl_handler 7 (some "job.gcode") (fun _ => some [71, 49, 10]) Relay.boot)
    [79] [75, 13, 10] rfl rfl rfl rfl).1

/-! ## Relay engine: one terminal report per session -/

/-- What `send_line` leaves unchanged, and that it sends no report. -/
theorem send_line_frame (s s1 : Relay) (h : send_line s = some s1) :
    s1.reports = s.reports ∧ s1.ri = s.ri ∧ s1.timers = s.timers ∧
    s1.timer_id = s.timer_id ∧ s1.rx_enabled = s.rx_enabled ∧ s1.timeout = s.timeout := by
  unfold send_line at h
  cases hfp : s.fp with
  | none => simp [hfp] at h
  | some f =>
    cases hg : fgets MAX_GCODE_LINE_LENGTH f with
    | none => simp [hfp, hg] at h
    | some r =>
      simp only [hfp, hg, Option.some.injEq] at h
      subst h
      simp [Relay.reports, reports_in_append, reports_in]

/-- Storing received bytes touches only the response buffer and its cursor. -/
theorem store_rx_frame (data : List Nat) (s : Relay) :
    (store_rx data s).out = s.out ∧ (store_rx data s).ri = s.ri ∧
    (store_rx data s).timers = s.timers ∧ (store_rx data s).timer_id = s.timer_id ∧
    (store_rx data s).rx_enabled = s.rx_enabled ∧ (store_rx data s).timeout = s.timeout ∧
    (store_rx data s).fp = s.fp :=
  ⟨rfl, rfl, rfl, rfl, rfl, rfl, rfl⟩

/-- One event on a session without terminal report: either the session goes
on, or this event sends the terminal report, cancels the timer and disables
notifications. -/
theorem step_live (rs : List Report) (ri : Nat) (s : Relay) (e : RelayEvent)
    (h : Live rs ri s) : Live rs ri (s.step e) ∨ Done rs ri (s.step e) := by
  obtain ⟨hrep, hri, htm, hrx, hlo, hhi⟩ := h
  have hne : s.timers ≠ [] := by rw [htm]; simp
  cases e with
  | tick =>
    by_cases hpos : s.timeout > 0
    · left
      have : s.step .tick = { s with timeout := s.timeout - 1 } := by
        simp [Relay.step, hne, timer_cb, hpos]
      rw [this]
      exact ⟨hrep, hri, htm, hrx, by simp; omega, by simp; omega⟩
    · right
      rw [tick_expired s hne (by omega)]
      refine ⟨Or.inr ?_, by simp [htm], rfl⟩
      simp only [Relay.reports] at hrep ⊢
      rw [reports_in_append, hrep, hri]
      simp [reports_in]
  | rx data =>
    obtain ⟨f1, f2, f3, f4, f5, f6, _⟩ := store_rx_frame data s
    by_cases hd : data.length > 0
    · by_cases hfound : ack_found (store_rx data s) = true
      · cases hsend : send_line (store_rx data s) with
        | some s3 =>
          left
          obtain ⟨g1, g2, g3, g4, g5, _⟩ := send_line_frame _ _ hsend
          have : s.step (.rx data) =
              { s3 with
                p := 0
                response_buffer := List.replicate RESPONSE_BUFFER_SIZE 0
                timeout := TIMEOUT_FOLLOWING / 10 } := by
            simp [Relay.step, hrx, uart_dispatcher, hd, hfound, hsend]
          rw [this]
          refine ⟨?_, ?_, ?_, ?_, by simp [TIMEOUT_FOLLOWING], by simp [TIMEOUT_FOLLOWING]⟩
          · have : s3.reports = rs := by rw [g1, Relay.reports, f1]; exact hrep
            exact this
          · show s3.ri = ri
            rw [g2, f2, hri]
          · show s3.timers = [s3.timer_id]
            rw [g3, g4, f3, f4, htm]
          · show s3.rx_enabled = true
            rw [g5, f5, hrx]
        | none =>
          right
          have : s.step (.rx data) =
              { store_rx data s with
                fp := (store_rx data s).fp.map fclose
                out := (store_rx data s).out ++
                  [.report (.response (store_rx data s).ri STATUS_OK)]
                timers := (store_rx data s).timers.erase (store_rx data s).timer_id
                rx_enabled := false
                timeout := TIMEOUT_FOLLOWING / 10 } := by
            simp [Relay.step, hrx, uart_dispatcher, hd, hfound, hsend]
          rw [this]
          refine ⟨Or.inl ?_, ?_, rfl⟩
          · simp only [Relay.reports] at hrep ⊢
            rw [reports_in_append, f1, hrep, f2, hri]
            simp [reports_in]
          · show (store_rx data s).timers.erase (store_rx data s).timer_id = []
            rw [f3, f4, htm]; simp
      · left
        have : s.step (.rx data) = store_rx data s := by
          simp [Relay.step, hrx, uart_dispatcher, hd, hfound]
        rw [this]
        exact ⟨by rw [Relay.reports, f1]; exact hrep, by rw [f2, hri], by rw [f3, f4, htm],
          by rw [f5, hrx], by rw [f6]; exact hlo, by rw [f6]; exact hhi⟩
    · left
      have : s.step (.rx data) = s := by
        simp [Relay.step, hrx, uart_dispatcher, hd]
      rw [this]
      exact ⟨hrep, hri, htm, hrx, hlo, hhi⟩

/-- A session that has sent its terminal report is not changed by any event. -/
theorem step_done (rs : List Report) (ri : Nat) (s : Relay) (e : RelayEvent)
    (h : Done rs ri s) : s.step e = s :=
  step_dead s e h.timers h.rx

/-- Every state of a run from a session without terminal report has sent none
or one. -/
theorem run_live (rs : List Report) (ri : Nat) (es : List RelayEvent) :
    ∀ s : Relay, Live rs ri s → Live rs ri (s.run es) ∨ Done rs ri (s.run es) := by
  induction es with
  | nil => intro s h; exact Or.inl h
  | cons e es ih =>
    intro s h
    have hrun : s.run (e :: es) = (s.step e).run es := by simp [Relay.run]
    rw [hrun]
    rcases step_live rs ri s e h with h1 | h1
    · exact ih _ h1
    · right
      rw [run_dead es _ h1.timers h1.rx]
      exact h1

/-- The session that `dl_handler` starts has sent no terminal report. -/
theorem dl_live (s0 : Relay) (ri : Nat) (path : String) (fs : String → Option (List Nat))
    (content : List Nat) (hfs : fs path = some content) (h0 : s0.timers = []) :
    Live s0.reports ri (dl_handler ri (some path) fs s0) := by
  obtain ⟨rest, hA, _, hout, hto, hri⟩ := dl_start s0 ri path fs content hfs h0
  refine ⟨?_, hri, hA.timers, hA.rx, by rw [hto]; norm_num, by rw [hto]⟩
  rw [Relay.reports, hout, reports_in_append, reports_in_lines_outputs]
  simp [Relay.reports]

/-- More ticks than the countdown holds bring a session without terminal
report to its terminal report. -/
theorem ticks_finish (rs : List Report) (ri : Nat) (n : Nat) :
    ∀ s : Relay, Live rs ri s → s.timeout < n →
      Done rs ri (s.run (List.replicate n .tick)) := by
  induction n with
  | zero => intro s h hlt; have := h.lo; omega
  | succ n ih =>
    intro s h hlt
    have hrun : s.run (List.replicate (n + 1) .tick) =
        (s.step .tick).run (List.replicate n .tick) := by
      simp [Relay.run, List.replicate_succ]
    have hne : s.timers ≠ [] := by rw [h.timers]; simp
    rw [hrun]
    by_cases hpos : s.timeout > 0
    · have hstep : s.step .tick = { s with timeout := s.timeout - 1 } := by
        simp [Relay.step, hne, timer_cb, hpos]
      rw [hstep]
      apply ih
      · exact ⟨h.reports, h.ri, h.timers, h.rx, by simp; omega, by have := h.hi; simp; omega⟩
      · simp; omega
    · rcases step_live rs ri s .tick h with h1 | h1
      · exfalso
        rw [tick_expired s hne (by have := h.lo; omega)] at h1
        have := h1.rx
        simp at this
      · rw [run_dead _ _ h1.timers h1.rx]
        exact h1

/-- C7: in every state reachable from `dl_handler` by tick and receive events
(a tick is delivered only while a timer is armed, serial data only while
notifications are enabled) at most one terminal report, OK or TIMEOUT, has been
sent; the step that sends it leaves the timer cancelled and notifications
disabled; and the session does send it: 501 further ticks without receive
events bring the count to exactly one. -/
theorem C7_one_terminal_report (s0 : Relay) (ri : Nat) (path : String)
    (fs : String → Option (List Nat)) (content : List Nat) (es : List RelayEvent)
    (hfs : fs path = some content) (h0 : s0.timers = []) :
    (∃ rs, ((dl_handler ri (some path) fs s0).run es).reports = s0.reports ++ rs ∧
      rs.length ≤ 1 ∧
      ∀ r ∈ rs, r = .response ri STATUS_OK ∨ r = .response ri STATUS_TIMEOUT) ∧
    (∀ e, (((dl_handler ri (some path) fs s0).run es).step e).reports ≠
        ((dl_handler ri (some path) fs s0).run es).reports →
      (((dl_handler ri (some path) fs s0).run es).step e).timers = [] ∧
      (((dl_handler ri (some path) fs s0).run es).step e).rx_enabled = false) ∧
    (∃ r, (((dl_handler ri (some path) fs s0).run es).run (List.replicate 501 .tick)).reports =
      s0.reports ++ [r]) := by
  have hlive := dl_live s0 ri path fs content hfs h0
  rcases run_live s0.reports ri es _ hlive with h | h
  · refine ⟨⟨[], by simp [h.reports], by simp, by simp⟩, ?_, ?_⟩
    · intro e hne
      rcases step_live s0.reports ri _ e h with h1 | h1
      · exact absurd (h1.reports.trans h.reports.symm) hne
      · exact ⟨h1.timers, h1.rx⟩
    · have hd := ticks_finish s0.reports ri 501 _ h (by have := h.hi; omega)
      rcases hd.reports with h2 | h2
      · exact ⟨_, h2⟩
      · exact ⟨_, h2⟩
  · refine ⟨?_, ?_, ?_⟩
    · rcases h.reports with h2 | h2
      · exact ⟨[.response ri STATUS_OK], h2, by simp, by simp⟩
      · exact ⟨[.response ri STATUS_TIMEOUT], h2, by simp, by simp⟩
    · intro e hne
      rw [step_done s0.reports ri _ e h] at hne
      exact absurd rfl hne
    · rw [run_dead _ _ h.timers h.rx]
      rcases h.reports with h2 | h2
      · exact ⟨_, h2⟩
      · exact ⟨_, h2⟩

/-- Witness of C7: a relay of a one-line file from the boot state, after a tick
and an acknowledgment split over two receive events. -/
theorem C7_one_terminal_report_witness :
    ∃ rs, ((dl_handler 7 (some "job.gcode") (fun _ => some [71, 49, 10]) Relay.boot).run
        [.tick, .rx [79], .rx [75, 13, 10]]).reports = Relay.boot.reports ++ rs ∧
      rs.length ≤ 1 ∧
      ∀ r ∈ rs, r = .response 7 STATUS_OK ∨ r = .response 7 STATUS_TIMEOUT :=
  (C7_one_terminal_report Relay.boot 7 "job.gcode" (fun _ => some [71, 49, 10]) [71, 49, 10]
    [.tick, .rx [79], .rx [75, 13, 10]] rfl rfl).1

set_option maxRecDepth 100000 in
/-- C6 as stated fails: a file that is one line of 200 letters and a newline is
relayed to completion in two writes, the first 199 letters and then the last
letter with the newline, each followed by the terminator; the source has one
line, and truncating it would give one write. -/
theorem C6_counterexample :
    ((dl_handler 7 (some "job.gcode") (fun _ => some (List.replicate 200 71 ++ [10]))
        Relay.boot).run (acked [0, 0])).reports = [.response 7 STATUS_OK] ∧
    ((dl_handler 7 (some "job.gcode") (fun _ => some (List.replicate 200 71 ++ [10]))
        Relay.boot).run (acked [0, 0])).writes =
      [List.replicate 199 71 ++ [13, 10], [71, 10, 13, 10]] ∧
    spec_lines (List.replicate 200 71 ++ [10]) = [List.replicate 200 71 ++ [10]] ∧
    ((dl_handler 7 (some "job.gcode") (fun _ => some (List.replicate 200 71 ++ [10]))
        Relay.boot).run (acked [0, 0])).writes ≠
      spec_relay_writes (List.replicate 200 71 ++ [10]) := by
  decide

/-- The lines read from a file, put together, are the file: nothing is
dropped. -/
theorem read_lines_flatten (bytes : List Nat) : (read_lines bytes).flatten = bytes := by
  obtain ⟨n, hn⟩ : ∃ n, bytes.length = n := ⟨_, rfl⟩
  induction n using Nat.strong_induction_on generalizing bytes with
  | _ n ih =>
    by_cases hb : bytes = []
    · subst hb; simp [read_lines_nil]
    · have hpos : 0 < (fgets_chars (MAX_GCODE_LINE_LENGTH - 1) bytes).length :=
        List.length_pos.mpr (fgets_chars_ne_nil _ bytes hb)
      have hlen : 0 < bytes.length := List.length_pos.mpr hb
      rw [read_lines_cons bytes hb, List.flatten_cons,
        ih (bytes.length - (fgets_chars (MAX_GCODE_LINE_LENGTH - 1) bytes).length)
          (by omega) _ (by simp)]
      exact fgets_chars_take_drop _ bytes

/-- Every line read has at least one and at most `MAX_GCODE_LINE_LENGTH - 1`
bytes. -/
theorem read_lines_length (bytes : List Nat) :
    ∀ l ∈ read_lines bytes, 1 ≤ l.length ∧ l.length ≤ MAX_GCODE_LINE_LENGTH - 1 := by
  obtain ⟨n, hn⟩ : ∃ n, bytes.length = n := ⟨_, rfl⟩
  induction n using Nat.strong_induction_on generalizing bytes with
  | _ n ih =>
    by_cases hb : bytes = []
    · subst hb; simp [read_lines_nil]
    · have hpos : 0 < (fgets_chars (MAX_GCODE_LINE_LENGTH - 1) bytes).length :=
        List.length_pos.mpr (fgets_chars_ne_nil _ bytes hb)
      have hlen : 0 < bytes.length := List.length_pos.mpr hb
      intro l hl
      rw [read_lines_cons bytes hb, List.mem_cons] at hl
      rcases hl with rfl | hl
      · exact ⟨hpos, fgets_chars_length_le _ _⟩
      · exact ih (bytes.length - (fgets_chars (MAX_GCODE_LINE_LENGTH - 1) bytes).length)
          (by omega) _ (by simp) l hl

/-- Every line of a well-formed source can be read whole. -/
theorem source_lines_whole (ls : List (List Nat)) (h : source_lines ls) :
    ∀ l ∈ ls, whole_line l := by
  induction ls with
  | nil => intro l hl; simp at hl
  | cons m ms ih =>
    intro l hl
    cases ms with
    | nil =>
      simp at hl; subst hl; exact h
    | cons m2 ms2 =>
      rcases List.mem_cons.mp hl with rfl | hl2
      · exact h.1
      · exact ih h.2.2 l hl2

/-- C6, amended: when a source file that has a line is relayed to completion,
every write acknowledged in time, the writes on the serial link are the
successive results of `fgets` on the file, in order, each as a C string
followed by `\r\n`, and nothing else is written.  Each result has at most
`MAX_GCODE_LINE_LENGTH - 1 = 199` bytes and together they are the whole file,
so a longer source line is not truncated: it continues in the next write.  For
a file without NUL bytes each result is written unchanged, and for a file whose
lines can each be read whole the writes are exactly its lines, each followed by
`\r\n`. -/
theorem C6_relay_writes (s0 : Relay) (ri : Nat) (path : String)
    (fs : String → Option (List Nat)) (content : List Nat) (ks : List Nat)
    (hfs : fs path = some content) (h0 : s0.timers = [])
    (hks : ks.length = (read_lines content).length) (h1 : 1 ≤ ks.length)
    (hk : ∀ k ∈ ks, k < 100) :
    ((dl_handler ri (some path) fs s0).run (acked ks)).reports =
      s0.reports ++ [.response ri STATUS_OK] ∧
    ((dl_handler ri (some path) fs s0).run (acked ks)).writes =
      s0.writes ++ (read_lines content).map (fun l => cstr l ++ CRLF) ∧
    (read_lines content).flatten = content ∧
    (∀ l ∈ read_lines content, 1 ≤ l.length ∧ l.length ≤ MAX_GCODE_LINE_LENGTH - 1) ∧
    (0 ∉ content →
      ((dl_handler ri (some path) fs s0).run (acked ks)).writes =
        s0.writes ++ (read_lines content).map (fun l => l ++ CRLF)) ∧
    (∀ ls, source_lines ls → content = ls.flatten →
      ((dl_handler ri (some path) fs s0).run (acked ks)).writes =
        s0.writes ++ ls.map (fun l => l ++ CRLF)) := by
  obtain ⟨e1, _, _, _, _⟩ := relay_complete s0 ri path fs content ks hfs h0 hks h1 hk
  have hw : ((dl_handler ri (some path) fs s0).run (acked ks)).writes =
      s0.writes ++ (read_lines content).map (fun l => cstr l ++ CRLF) := by
    rw [Relay.writes, e1, writes_in_append, writes_in_append, writes_in_lines_outputs]
    simp [Relay.writes, writes_in]
  have hnul : 0 ∉ content →
      (read_lines content).map (fun l => cstr l ++ CRLF) =
        (read_lines content).map (fun l => l ++ CRLF) := by
    intro h0c
    apply List.map_congr_left
    intro l hl
    have : 0 ∉ l := by
      intro hmem
      apply h0c
      rw [← read_lines_flatten content]
      exact List.mem_flatten.mpr ⟨l, hl, hmem⟩
    rw [cstr_of_no_nul l this]
  refine ⟨?_, hw, read_lines_flatten content, read_lines_length content, ?_, ?_⟩
  · rw [Relay.reports, e1, reports_in_append, reports_in_append, reports_in_lines_outputs]
    simp [Relay.reports, reports_in]
  · intro h0c
    rw [hw, hnul h0c]
  · intro ls hls hc
    have hrl : read_lines content = ls := by rw [hc]; exact read_lines_source ls hls
    have h0c : 0 ∉ content := by
      rw [hc]
      intro hmem
      obtain ⟨l, hl, hmem⟩ := List.mem_flatten.mp hmem
      exact (source_lines_whole ls hls l hl).2.2.1 hmem
    rw [hw, hnul h0c, hrl]

set_option maxRecDepth 100000 in
/-- Witness of C6, amended: the file of one line of 200 letters and a newline,
relayed from the boot state and acknowledged at once. -/
theorem C6_relay_writes_witness :
    ((dl_handler 7 (some "job.gcode") (fun _ => some (List.replicate 200 71 ++ [10]))
        Relay.boot).run (acked [0, 0])).writes =
      Relay.boot.writes ++
        (read_lines (List.replicate 200 71 ++ [10])).map (fun l => cstr l ++ CRLF) :=
  (C6_relay_writes Relay.boot 7 "job.gcode" (fun _ => some (List.replicate 200 71 ++ [10]))
    (List.replicate 200 71 ++ [10]) [0, 0] rfl rfl (by decide) (by decide) (by decide)).2.1

/-! ## Fetch engine: synchronous failures and the byte counter -/

/-- C11: a Fetch request in which `url` or `file` is missing, and a Fetch
request whose destination cannot be opened for writing, is answered by
`fetch_handler` with exactly one error report with code 500, which names the
path in the second case; no session is allocated, none is left, and
`mg_connect_http` is not called. -/
theorem C11_fetch_rejected (ri : Nat) (url path : Option String) (env : FetchEnv) :
    ((url = none ∨ path = none) →
      fetch_handler ri url path env =
        { out := [.error ri 500 (some "expecting url or file")], fp := none, session := none,
          allocated := 0, connects := [] }) ∧
    (∀ u f, url = some u → path = some f → env.fopen_ok = false →
      fetch_handler ri url path env =
        { out := [.error ri 500 (some ("cannot open " ++ f))], fp := none, session := none,
          allocated := 0, connects := [] }) := by
  constructor
  · intro h
    rcases h with h | h
    · subst h; cases path <;> simp [fetch_handler]
    · subst h; cases url <;> simp [fetch_handler]
  · intro u f hu hf hopen
    subst hu hf
    simp [fetch_handler, hopen]

/-- Witness of C11: a request without `file`, and a request whose destination
cannot be opened. -/
theorem C11_fetch_rejected_witness :
    fetch_handler 3 (some "http://h/job") none ⟨true, true, true⟩ =
        { out := [.error 3 500 (some "expecting url or file")], fp := none, session := none,
          allocated := 0, connects := [] } ∧
    fetch_handler 3 (some "http://h/job") (some "/ro/job.gcode") ⟨false, true, true⟩ =
        { out := [.error 3 500 (some ("cannot open " ++ "/ro/job.gcode"))], fp := none,
          session := none, allocated := 0, connects := [] } :=
  ⟨(C11_fetch_rejected 3 (some "http://h/job") none ⟨true, true, true⟩).1 (Or.inr rfl),
   (C11_fetch_rejected 3 (some "http://h/job") (some "/ro/job.gcode") ⟨false, true, true⟩).2
      _ _ rfl rfl rfl⟩

/-- One event on a live session with an open sink: the counter grows by what
`fwrite` persists, the sink by the persisted bytes, and the sink stays open
unless the session is released. -/
theorem deliver_counts (w : FetchSession) (ev : HttpEvent) (d : List Nat)
    (hfree : w.freed = false) (hfp : w.st.fp = some ⟨d, true⟩)
    (h0 : 0 ≤ w.st.written) (hlt : w.st.written + chunk_counts [ev] < 2 ^ 63) :
    (w.deliver ev).st.written = w.st.written + chunk_counts [ev] ∧
    (w.deliver ev).st.fp =
      some ⟨d ++ chunk_persisted [ev], !(w.deliver ev).freed⟩ ∧
    ((w.deliver ev).freed = true ↔ ev = .close) := by
  cases ev with
  | connect cs => simp [FetchSession.deliver, http_cb, hfree, hfp, chunk_counts, chunk_persisted]
  | reply rc => simp [FetchSession.deliver, http_cb, hfree, hfp, chunk_counts, chunk_persisted]
  | other e => simp [FetchSession.deliver, http_cb, hfree, hfp, chunk_counts, chunk_persisted]
  | close =>
    simp [FetchSession.deliver, http_cb, hfree, hfp, chunk_counts, chunk_persisted, fclose]
  | chunk body room =>
    simp only [chunk_counts, Nat.add_zero] at hlt
    have hw : int64 (w.st.written + (min body.length room : Nat)) =
        w.st.written + (min body.length room : Nat) := int64_of_range (by omega) hlt
    by_cases hn : min body.length room = body.length
    · simp [FetchSession.deliver, http_cb, fwrite, hfree, hfp, chunk_counts, chunk_persisted, hn]
      rw [hn] at hw
      exact hw
    · simp [FetchSession.deliver, http_cb, fwrite, hfree, hfp, chunk_counts, chunk_persisted, hn]
      push_cast at hw
      exact hw

/-- A released session receives nothing. -/
theorem run_freed (evs : List HttpEvent) (w : FetchSession) (h : w.freed = true) :
    w.run evs = w := by
  induction evs with
  | nil => rfl
  | cons e es ih =>
    have : w.run (e :: es) = (w.deliver e).run es := by simp [FetchSession.run]
    rw [this]
    have hd : w.deliver e = w := by simp [FetchSession.deliver, h]
    rw [hd, ih]

/-- The persisted bytes are as many as the write counts say. -/
theorem chunk_persisted_length (evs : List HttpEvent) :
    (chunk_persisted evs).length = chunk_counts evs := by
  induction evs with
  | nil => rfl
  | cons e es ih =>
    cases e <;> simp [chunk_persisted, chunk_counts, ih]

/-- The write counts and persisted bytes of a sequence that does not start with
the connection-closed event. -/
theorem chunk_counts_cons (e : HttpEvent) (es : List HttpEvent) (h : e ≠ .close) :
    chunk_counts (e :: es) = chunk_counts [e] + chunk_counts es ∧
    chunk_persisted (e :: es) = chunk_persisted [e] ++ chunk_persisted es := by
  cases e <;> simp [chunk_counts, chunk_persisted] at h ⊢

/-- Over any sequence of events on a live session with an open sink the counter
grows by the write counts and the sink by the persisted bytes. -/
theorem run_counts (evs : List HttpEvent) :
    ∀ (w : FetchSession) (d : List Nat), w.freed = false → w.st.fp = some ⟨d, true⟩ →
      0 ≤ w.st.written → w.st.written + chunk_counts evs < 2 ^ 63 →
      (w.run evs).st.written = w.st.written + chunk_counts evs ∧
      (w.run evs).st.fp = some ⟨d ++ chunk_persisted evs, !(w.run evs).freed⟩ := by
  induction evs with
  | nil =>
    intro w d hfree hfp _ _
    simp [FetchSession.run, chunk_counts, chunk_persisted, hfree, hfp]
  | cons e es ih =>
    intro w d hfree hfp h0 hlt
    have hrun : w.run (e :: es) = (w.deliver e).run es := by simp [FetchSession.run]
    rw [hrun]
    by_cases hc : e = .close
    · subst hc
      obtain ⟨a1, a2, a3⟩ := deliver_counts w .close d hfree hfp h0 (by simp [chunk_counts]; omega)
      have hfr : (w.deliver .close).freed = true := a3.mpr rfl
      rw [run_freed es _ hfr]
      refine ⟨by simpa [chunk_counts] using a1, ?_⟩
      simpa [chunk_persisted] using a2
    · obtain ⟨c1, c2⟩ := chunk_counts_cons e es hc
      rw [c1] at hlt
      push_cast at hlt
      obtain ⟨a1, a2, a3⟩ := deliver_counts w e d hfree hfp h0 (by omega)
      have hfr : (w.deliver e).freed = false := by
        cases h : (w.deliver e).freed
        · rfl
        · exact absurd (a3.mp h) hc
      rw [hfr] at a2
      obtain ⟨b1, b2⟩ := ih (w.deliver e) _ hfr (by simpa using a2) (by omega) (by omega)
      refine ⟨?_, ?_⟩
      · rw [b1, a1, c1]; push_cast; omega
      · rw [b2, c2, List.append_assoc]

/-- The session record that `fetch_handler` creates. -/
theorem fetch_handler_session (ri : Nat) (url path : Option String) (env : FetchEnv)
    (st : state) (h : (fetch_handler ri url path env).session = some st) :
    st = ⟨ri, 0, 0, some ⟨[], true⟩⟩ := by
  obtain ⟨fo, co, cn⟩ := env
  cases url <;> cases path <;> cases fo <;> cases co <;> cases cn <;>
    simp [fetch_handler] at h
  rw [← h]

/-- C17: in every state that the session started by `fetch_handler` reaches,
whatever events it has received, `written` equals the number of bytes actually
persisted to the sink, the sum of the write counts of `fwrite` over the chunk
events received so far, short writes included; the sink holds exactly these
bytes.  The sum is within the range of the `int64_t` counter. -/
theorem C17_written_counts (ri : Nat) (url path : Option String) (env : FetchEnv)
    (st : state) (evs : List HttpEvent)
    (hst : (fetch_handler ri url path env).session = some st)
    (hrange : chunk_counts evs < 2 ^ 63) :
    ((FetchSession.start st).run evs).st.written = chunk_counts evs ∧
    ∃ f, ((FetchSession.start st).run evs).st.fp = some f ∧
      f.bytes = chunk_persisted evs ∧ (f.bytes.length : Int) =
        ((FetchSession.start st).run evs).st.written := by
  have hs := fetch_handler_session ri url path env st hst
  subst hs
  obtain ⟨b1, b2⟩ := run_counts evs (FetchSession.start ⟨ri, 0, 0, some ⟨[], true⟩⟩) [] rfl rfl
    (by simp [FetchSession.start]) (by simp [FetchSession.start]; exact_mod_cast hrange)
  have hw : ((FetchSession.start ⟨ri, 0, 0, some ⟨[], true⟩⟩).run evs).st.written =
      chunk_counts evs := by
    rw [b1]; simp [FetchSession.start]
  refine ⟨hw, _, b2, by simp, ?_⟩
  rw [hw]
  simp [chunk_persisted_length]

/-- Witness of C17: a full chunk, a short chunk and a further full chunk. -/
theorem C17_written_counts_witness :
    ((FetchSession.start ⟨3, 0, 0, some ⟨[], true⟩⟩).run
      [.connect 0, .chunk [71, 49] 2, .chunk [10, 71] 1, .chunk [50] 4]).st.written =
      chunk_counts [.connect 0, .chunk [71, 49] 2, .chunk [10, 71] 1, .chunk [50] 4] :=
  (C17_written_counts 3 (some "http://h/job") (some "job.gcode") ⟨true, true, true⟩
    ⟨3, 0, 0, some ⟨[], true⟩⟩ [.connect 0, .chunk [71, 49] 2, .chunk [10, 71] 1, .chunk [50] 4]
    (by decide) (by decide)).1

/-! ## Relay engine: frame properties -/

/-- C12: a `dl_handler` call whose `file` argument is missing or whose source
file cannot be opened reports exactly one error with code 500 and changes
nothing else: caller, source handle, response buffer and cursor, line buffer,
countdown and timer handle keep their values, nothing is written to the serial
link, no timer is armed and the notification switch is not touched. -/
theorem C12_relay_rejected (s : Relay) (ri : Nat) (path : Option String)
    (fs : String → Option (List Nat))
    (h : path = none ∨ ∃ f, path = some f ∧ fs f = none) :
    (∃ msg, dl_handler ri path fs s =
      { s with out := s.out ++ [.report (.error ri 500 (some msg))] }) ∧
    (dl_handler ri path fs s).reports.length = s.reports.length + 1 ∧
    (dl_handler ri path fs s).writes = s.writes ∧
    (dl_handler ri path fs s).ri = s.ri ∧
    (dl_handler ri path fs s).fp = s.fp ∧
    (dl_handler ri path fs s).response_buffer = s.response_buffer ∧
    (dl_handler ri path fs s).p = s.p ∧
    (dl_handler ri path fs s).gcode_buffer = s.gcode_buffer ∧
    (dl_handler ri path fs s).timeout = s.timeout ∧
    (dl_handler ri path fs s).timer_id = s.timer_id ∧
    (dl_handler ri path fs s).timers = s.timers ∧
    (dl_handler ri path fs s).rx_enabled = s.rx_enabled := by
  rcases h with h | ⟨f, h, hf⟩
  · subst h
    refine ⟨⟨"expecting file", by simp [dl_handler]⟩, ?_⟩
    simp [dl_handler, Relay.reports, Relay.writes, reports_in_append, writes_in_append,
      reports_in, writes_in]
  · subst h
    refine ⟨⟨"cannot open " ++ f, by simp [dl_handler, hf]⟩, ?_⟩
    simp [dl_handler, hf, Relay.reports, Relay.writes, reports_in_append, writes_in_append,
      reports_in, writes_in]

/-- Witness of C12: a request for a file that does not exist, at boot. -/
theorem C12_relay_rejected_witness :
    (dl_handler 7 (some "none.gcode") (fun _ => none) Relay.boot).writes = Relay.boot.writes ∧
    (dl_handler 7 (some "none.gcode") (fun _ => none) Relay.boot).timers = Relay.boot.timers :=
  ⟨(C12_relay_rejected Relay.boot 7 (some "none.gcode") (fun _ => none)
      (Or.inr ⟨"none.gcode", rfl, rfl⟩)).2.2.1,
   (C12_relay_rejected Relay.boot 7 (some "none.gcode") (fun _ => none)
      (Or.inr ⟨"none.gcode", rfl, rfl⟩)).2.2.2.2.2.2.2.2.2.2.1⟩

/-- C18: the tick that declares the timeout, the one delivered while a timer is
armed and the countdown is not above zero, sends the TIMEOUT report, cancels
the timer of the session and disables notifications, and does nothing else:
the source handle with its position and its open flag, the response buffer,
its cursor, the line buffer and the countdown keep their values. -/
theorem C18_timeout_tick_frame (s : Relay) (harmed : s.timers ≠ [])
    (hexp : ¬ s.timeout > 0) :
    s.step .tick =
      { s with
        out := s.out ++ [.report (.response s.ri STATUS_TIMEOUT)]
        timers := s.timers.erase s.timer_id
        rx_enabled := false } ∧
    (s.step .tick).fp = s.fp ∧
    (s.step .tick).response_buffer = s.response_buffer ∧
    (s.step .tick).p = s.p ∧
    (s.step .tick).gcode_buffer = s.gcode_buffer ∧
    (s.step .tick).timeout = s.timeout ∧
    (s.step .tick).writes = s.writes ∧
    (s.step .tick).reports = s.reports ++ [.response s.ri STATUS_TIMEOUT] := by
  have hstep : s.step .tick =
      { s with
        out := s.out ++ [.report (.response s.ri STATUS_TIMEOUT)]
        timers := s.timers.erase s.timer_id
        rx_enabled := false } := by
    simp [Relay.step, harmed, timer_cb, hexp]
  rw [hstep]
  simp [Relay.reports, Relay.writes, reports_in_append, writes_in_append, reports_in, writes_in]

set_option maxRecDepth 100000 in
/-- Witness of C18: the 501st tick of a relay that is never acknowledged leaves
the source open. -/
theorem C18_timeout_tick_frame_witness :
    (((dl_handler 7 (some "job.gcode") (fun _ => some [71, 49, 10, 71, 50, 10]) Relay.boot).run
      (List.replicate 500 .tick)).step .tick).fp = some ⟨[71, 50, 10], true⟩ :=
  ((C18_timeout_tick_frame
    ((dl_handler 7 (some "job.gcode") (fun _ => some [71, 49, 10, 71, 50, 10]) Relay.boot).run
      (List.replicate 500 .tick)) (by decide) (by decide)).2.1).trans (by decide)

/-! ## Relay engine: what one receive event does -/

/-- The four ways through `uart_dispatcher`: no data; data without a token in
the buffer; a token and a further line; a token and no further line. -/
theorem dispatcher_cases (data : List Nat) (s : Relay) :
    (data = [] ∧ uart_dispatcher data s = s) ∨
    (data ≠ [] ∧ ack_found (store_rx data s) = false ∧
      uart_dispatcher data s = store_rx data s) ∨
    (data ≠ [] ∧ ack_found (store_rx data s) = true ∧
      ∃ s3, send_line (store_rx data s) = some s3 ∧
        uart_dispatcher data s =
          { s3 with
            p := 0
            response_buffer := List.replicate RESPONSE_BUFFER_SIZE 0
            timeout := TIMEOUT_FOLLOWING / 10 }) ∨
    (data ≠ [] ∧ ack_found (store_rx data s) = true ∧
      send_line (store_rx data s) = none ∧
      uart_dispatcher data s =
        { store_rx data s with
          fp := (store_rx data s).fp.map fclose
          out := (store_rx data s).out ++ [.report (.response (store_rx data s).ri STATUS_OK)]
          timers := (store_rx data s).timers.erase (store_rx data s).timer_id
          rx_enabled := false
          timeout := TIMEOUT_FOLLOWING / 10 }) := by
  by_cases hd : data = []
  · left
    subst hd
    exact ⟨rfl, by simp [uart_dispatcher]⟩
  · have hlen : data.length > 0 := List.length_pos.mpr hd
    right
    cases hfound : ack_found (store_rx data s) with
    | false =>
      left
      exact ⟨hd, rfl, by simp [uart_dispatcher, hlen, hfound]⟩
    | true =>
      right
      cases hsend : send_line (store_rx data s) with
      | some s3 =>
        left
        exact ⟨hd, rfl, s3, rfl, by simp [uart_dispatcher, hlen, hfound, hsend]⟩
      | none =>
        right
        exact ⟨hd, rfl, rfl, by simp [uart_dispatcher, hlen, hfound, hsend]⟩

/-- What a successful `fgets` returns: the characters read from an open
stream, at least one, and the stream advanced past them. -/
theorem fgets_some (n : Nat) (f : FILE) (l : List Nat) (f1 : FILE)
    (h : fgets n f = some (l, f1)) :
    f.isOpen = true ∧ l = fgets_chars (n - 1) f.bytes ∧ l ≠ [] ∧
    f1 = ⟨f.bytes.drop l.length, true⟩ := by
  unfold fgets at h
  by_cases ho : f.isOpen = true
  · by_cases hl : fgets_chars (n - 1) f.bytes = []
    · simp [ho, hl] at h
    · simp only [ho, hl, if_true, if_false, Option.some.injEq, Prod.mk.injEq] at h
      obtain ⟨h1, h2⟩ := h
      subst h1
      exact ⟨ho, rfl, hl, by rw [← h2]⟩
  · simp [ho] at h

/-- What `send_line` hands to the serial link: one write of the line buffer,
which holds at most `MAX_GCODE_LINE_LENGTH - 1` bytes read from the source and
the two bytes of the terminator, and one flush. -/
theorem send_line_write (s s1 : Relay) (h : send_line s = some s1) :
    ∃ f l f1, s.fp = some f ∧ fgets MAX_GCODE_LINE_LENGTH f = some (l, f1) ∧
      s1.fp = some f1 ∧ s1.gcode_buffer = cstr l ++ CRLF ∧
      s1.out = s.out ++ [.uart_write SAM3X_UART (cstr l ++ CRLF), .uart_flush SAM3X_UART] ∧
      (cstr l).length ≤ MAX_GCODE_LINE_LENGTH - 1 := by
  unfold send_line at h
  cases hfp : s.fp with
  | none => simp [hfp] at h
  | some f =>
    cases hg : fgets MAX_GCODE_LINE_LENGTH f with
    | none => simp [hfp, hg] at h
    | some r =>
      obtain ⟨l, f1⟩ := r
      obtain ⟨e1, e2⟩ := strcat_crlf l
      simp only [hfp, hg, Option.some.injEq, e1, e2] at h
      subst h
      refine ⟨f, l, f1, rfl, hg, rfl, rfl, rfl, ?_⟩
      have hl : l.length ≤ MAX_GCODE_LINE_LENGTH - 1 := by
        rw [(fgets_some _ f l f1 hg).2.1]
        exact fgets_chars_length_le _ _
      have hc : (cstr l).length ≤ l.length := by
        unfold cstr
        exact (List.takeWhile_sublist _).length_le
      omega

/-! ## Relay engine: the claims on single receive events -/

/-- C13, the code at the failing input: after a relay is started the controller
sends `echo:processing\r\n` (17 bytes) and then `wait\r\n` (6 bytes), no token
among them.  `strncpy` stores all 23 bytes from the cursor on: the last three
land past the end of the 20-byte buffer and the cursor ends at offset 23. -/
theorem C13_response_buffer_overrun :
    ((dl_handler 7 (some "job.gcode") (fun _ => some [71, 49, 10]) Relay.boot).run
      [.rx [101, 99, 104, 111, 58, 112, 114, 111, 99, 101, 115, 115, 105, 110, 103, 13, 10],
       .rx [119, 97, 105, 116, 13, 10]]).p = 23 ∧
    ((dl_handler 7 (some "job.gcode") (fun _ => some [71, 49, 10]) Relay.boot).run
      [.rx [101, 99, 104, 111, 58, 112, 114, 111, 99, 101, 115, 115, 105, 110, 103, 13, 10],
       .rx [119, 97, 105, 116, 13, 10]]).overrun = [116, 13, 10] ∧
    ((dl_handler 7 (some "job.gcode") (fun _ => some [71, 49, 10]) Relay.boot).run
      [.rx [101, 99, 104, 111, 58, 112, 114, 111, 99, 101, 115, 115, 105, 110, 103, 13, 10],
       .rx [119, 97, 105, 116, 13, 10]]).response_buffer =
      [101, 99, 104, 111, 58, 112, 114, 111, 99, 101, 115, 115, 105, 110, 103, 13, 10,
        119, 97, 105] ∧
    RESPONSE_BUFFER_SIZE <
      ((dl_handler 7 (some "job.gcode") (fun _ => some [71, 49, 10]) Relay.boot).run
        [.rx [101, 99, 104, 111, 58, 112, 114, 111, 99, 101, 115, 115, 105, 110, 103, 13, 10],
         .rx [119, 97, 105, 116, 13, 10]]).p := by
  decide

/-- The outputs of one receive event: nothing; or one report; or one write of a
line read by `fgets`, as a C string followed by `\r\n`, and a flush, after
which the response buffer is reset. -/
theorem step_rx_outputs (s : Relay) (data : List Nat) :
    ((s.step (.rx data)).out = s.out ∧
      ((s.step (.rx data)).fp = s.fp)) ∨
    ((∃ r, (s.step (.rx data)).out = s.out ++ [.report r]) ∧
      (s.step (.rx data)).fp = s.fp.map fclose) ∨
    (∃ f l f1, s.fp = some f ∧ fgets MAX_GCODE_LINE_LENGTH f = some (l, f1) ∧
      (s.step (.rx data)).fp = some f1 ∧
      (s.step (.rx data)).out =
        s.out ++ [.uart_write SAM3X_UART (cstr l ++ CRLF), .uart_flush SAM3X_UART] ∧
      (cstr l).length ≤ MAX_GCODE_LINE_LENGTH - 1 ∧
      (s.step (.rx data)).gcode_buffer = cstr l ++ CRLF ∧
      (s.step (.rx data)).response_buffer = List.replicate RESPONSE_BUFFER_SIZE 0 ∧
      (s.step (.rx data)).p = 0) := by
  by_cases hrx : s.rx_enabled = true
  · have hstep : s.step (.rx data) = uart_dispatcher data s := by simp [Relay.step, hrx]
    rw [hstep]
    rcases dispatcher_cases data s with ⟨_, h⟩ | ⟨_, _, h⟩ | ⟨_, _, s3, hs3, h⟩ | ⟨_, _, _, h⟩
    · left; rw [h]; exact ⟨rfl, rfl⟩
    · left; rw [h]; exact ⟨rfl, rfl⟩
    · right; right
      obtain ⟨f, l, f1, a1, a2, a3, a4, a5, a6⟩ := send_line_write _ _ hs3
      rw [h]
      exact ⟨f, l, f1, a1, a2, a3, a5, a6, a4, rfl, rfl⟩
    · right; left
      rw [h]
      exact ⟨⟨_, rfl⟩, rfl⟩
  · left
    have hstep : s.step (.rx data) = s := by simp [Relay.step, hrx]
    rw [hstep]
    exact ⟨rfl, rfl⟩

/-- A tick writes nothing to the serial link. -/
theorem step_tick_writes (s : Relay) : (s.step .tick).writes = s.writes := by
  by_cases ht : s.timers = []
  · simp [Relay.step, ht]
  · by_cases hpos : s.timeout > 0
    · simp [Relay.step, ht, timer_cb, hpos, Relay.writes]
    · simp [Relay.step, ht, timer_cb, hpos, Relay.writes, writes_in_append, writes_in]

/-- The writes of one event: none, or one line of at most
`MAX_GCODE_LINE_LENGTH - 1` bytes followed by `\r\n`. -/
theorem step_writes (s : Relay) (e : RelayEvent) :
    (s.step e).writes = s.writes ∨
    ∃ l, (s.step e).writes = s.writes ++ [l ++ CRLF] ∧ l.length ≤ MAX_GCODE_LINE_LENGTH - 1 := by
  cases e with
  | tick => exact Or.inl (step_tick_writes s)
  | rx data =>
    rcases step_rx_outputs s data with ⟨h, _⟩ | ⟨⟨r, h⟩, _⟩ | ⟨f, l, f1, _, _, _, h, hl, _⟩
    · left; simp [Relay.writes, h]
    · left; simp [Relay.writes, h, writes_in_append, writes_in]
    · right
      exact ⟨cstr l, by simp [Relay.writes, h, writes_in_append, writes_in], hl⟩

/-- The writes of `dl_handler`: none, or one line of at most
`MAX_GCODE_LINE_LENGTH - 1` bytes followed by `\r\n`. -/
theorem dl_handler_writes (s : Relay) (ri : Nat) (path : Option String)
    (fs : String → Option (List Nat)) :
    (dl_handler ri path fs s).writes = s.writes ∨
    ∃ l, (dl_handler ri path fs s).writes = s.writes ++ [l ++ CRLF] ∧
      l.length ≤ MAX_GCODE_LINE_LENGTH - 1 := by
  cases path with
  | none => left; simp [dl_handler, Relay.writes, writes_in_append, writes_in]
  | some f =>
    cases hf : fs f with
    | none => left; simp [dl_handler, hf, Relay.writes, writes_in_append, writes_in]
    | some content =>
      cases hsend : send_line
          { s with
            p := 0
            response_buffer := List.replicate RESPONSE_BUFFER_SIZE 0
            fp := some { bytes := content, isOpen := true }
            ri := ri } with
      | none => left; simp [dl_handler, hf, hsend, Relay.writes]
      | some s2 =>
        right
        obtain ⟨_, l, _, _, _, _, _, a5, a6⟩ := send_line_write _ _ hsend
        refine ⟨cstr l, ?_, a6⟩
        simp [dl_handler, hf, hsend, Relay.writes, a5, writes_in_append, writes_in]

/-- Every write of a run is a line of at most `MAX_GCODE_LINE_LENGTH - 1` bytes
followed by `\r\n`. -/
theorem run_writes (es : List RelayEvent) :
    ∀ s : Relay, ∃ ws, (s.run es).writes = s.writes ++ ws ∧
      ∀ b ∈ ws, ∃ l, b = l ++ CRLF ∧ l.length ≤ MAX_GCODE_LINE_LENGTH - 1 := by
  induction es with
  | nil => intro s; exact ⟨[], by simp [Relay.run], by simp⟩
  | cons e es ih =>
    intro s
    have hrun : s.run (e :: es) = (s.step e).run es := by simp [Relay.run]
    obtain ⟨ws, h1, h2⟩ := ih (s.step e)
    rw [hrun]
    rcases step_writes s e with h | ⟨l, h, hl⟩
    · exact ⟨ws, by rw [h1, h], h2⟩
    · refine ⟨(l ++ CRLF) :: ws, by rw [h1, h]; simp, ?_⟩
      intro b hb
      rcases List.mem_cons.mp hb with rfl | hb
      · exact ⟨l, rfl, hl⟩
      · exact h2 b hb

/-- C19: whatever the source file holds and whatever events arrive, every line
that `dl_handler` and `uart_dispatcher` hand to the serial link is at most 201
bytes long, at most `MAX_GCODE_LINE_LENGTH - 1 = 199` bytes read from the
source followed by the two bytes `\r\n`, so that with its NUL terminator it
fits into the `MAX_GCODE_LINE_LENGTH + 5 = 205` bytes of the line buffer. -/
theorem C19_line_fits_buffer (s0 : Relay) (ri : Nat) (path : Option String)
    (fs : String → Option (List Nat)) (es : List RelayEvent) :
    ∃ ws, ((dl_handler ri path fs s0).run es).writes = s0.writes ++ ws ∧
      ∀ b ∈ ws, b.length ≤ 201 ∧
        (∃ l, b = l ++ CRLF ∧ l.length ≤ MAX_GCODE_LINE_LENGTH - 1) ∧
        b.length + 1 ≤ MAX_GCODE_LINE_LENGTH + 5 := by
  obtain ⟨ws, h1, h2⟩ := run_writes es (dl_handler ri path fs s0)
  have hgood : ∀ b : List Nat, (∃ l, b = l ++ CRLF ∧ l.length ≤ MAX_GCODE_LINE_LENGTH - 1) →
      b.length ≤ 201 ∧ (∃ l, b = l ++ CRLF ∧ l.length ≤ MAX_GCODE_LINE_LENGTH - 1) ∧
        b.length + 1 ≤ MAX_GCODE_LINE_LENGTH + 5 := by
    intro b hb
    obtain ⟨l, rfl, hl⟩ := hb
    simp only [MAX_GCODE_LINE_LENGTH] at hl ⊢
    refine ⟨by simp [CRLF]; omega, ⟨l, rfl, hl⟩, by simp [CRLF]; omega⟩
  rcases dl_handler_writes s0 ri path fs with h | ⟨l, h, hl⟩
  · exact ⟨ws, by rw [h1, h], fun b hb => hgood b (h2 b hb)⟩
  · refine ⟨(l ++ CRLF) :: ws, by rw [h1, h]; simp, ?_⟩
    intro b hb
    rcases List.mem_cons.mp hb with rfl | hb
    · exact hgood _ ⟨l, rfl, hl⟩
    · exact hgood b (h2 b hb)

set_option maxRecDepth 100000 in
/-- Witness of C19: the relay of a line of 200 letters and a newline writes 201
bytes and then 4 bytes. -/
theorem C19_line_fits_buffer_witness :
    ∃ ws, ((dl_handler 7 (some "job.gcode") (fun _ => some (List.replicate 200 71 ++ [10]))
        Relay.boot).run (acked [0, 0])).writes = Relay.boot.writes ++ ws ∧
      ∀ b ∈ ws, b.length ≤ 201 ∧
        (∃ l, b = l ++ CRLF ∧ l.length ≤ MAX_GCODE_LINE_LENGTH - 1) ∧
        b.length + 1 ≤ MAX_GCODE_LINE_LENGTH + 5 :=
  C19_line_fits_buffer Relay.boot 7 (some "job.gcode")
    (fun _ => some (List.replicate 200 71 ++ [10])) (acked [0, 0])

/-- The scanner `strstr` finds a needle exactly when the needle is a contiguous
block of the haystack. -/
theorem strstr_iff (hay needle : List Nat) : strstr hay needle = true ↔ needle <:+: hay := by
  induction hay with
  | nil => cases needle <;> simp [strstr]
  | cons h hay ih =>
    rw [strstr, Bool.or_eq_true, ih, List.infix_cons_iff, List.isPrefixOf_iff_prefix]

/-- Storing bytes that fit into an array replaces the bytes from the index
on. -/
theorem poke_eq (d : List Nat) :
    ∀ (buf : List Nat) (i : Nat), i + d.length ≤ buf.length →
      poke buf i d = buf.take i ++ d ++ buf.drop (i + d.length) := by
  induction d with
  | nil => intro buf i _; simp [poke]
  | cons b bs ih =>
    intro buf i h
    simp only [List.length_cons] at h
    rw [poke, ih (buf.set i b) (i + 1) (by simp; omega)]
    have hi : i < buf.length := by omega
    have hti : (buf.take i).length = i := by simp [List.length_take]; omega
    have h1 : (buf.set i b).take (i + 1) = buf.take i ++ [b] := by
      rw [List.set_eq_take_cons_drop b hi]
      have : buf.take i ++ b :: buf.drop (i + 1) = (buf.take i ++ [b]) ++ buf.drop (i + 1) := by
        simp
      rw [this, List.take_left']
      simp [hti]
    have h2 : (buf.set i b).drop (i + 1 + bs.length) = buf.drop (i + (bs.length + 1)) := by
      rw [List.drop_set_of_lt b buf (by omega)]
      congr 1
      omega
    rw [h1, h2]
    simp

/-- What `strncpy` stores for data without a NUL byte: the data. -/
theorem strncpy_bytes_of_no_nul (d : List Nat) (h : 0 ∉ d) : strncpy_bytes d d.length = d := by
  simp [strncpy_bytes, cstr_of_no_nul d h]

/-- The C string in a buffer that holds bytes without NUL followed by NUL
bytes. -/
theorem cstr_append_zeros (acc : List Nat) (k : Nat) (h : 0 ∉ acc) :
    cstr (acc ++ List.replicate k 0) = acc := by
  unfold cstr
  rw [List.takeWhile_append_of_pos]
  · cases k <;> simp [List.replicate_succ]
  · intro a ha
    have : a ≠ 0 := fun h0 => h (h0 ▸ ha)
    simpa using this

/-- One store into a buffer that holds the bytes `acc` received since the reset,
none of them NUL, followed by NUL bytes: data without a NUL byte that fits is
appended. -/
theorem store_rx_acc (s : Relay) (acc d : List Nat)
    (hbuf : s.response_buffer = acc ++ List.replicate (RESPONSE_BUFFER_SIZE - acc.length) 0)
    (hp : s.p = acc.length) (hd : 0 ∉ d)
    (hlen : acc.length + d.length ≤ RESPONSE_BUFFER_SIZE) :
    (store_rx d s).response_buffer =
      (acc ++ d) ++ List.replicate (RESPONSE_BUFFER_SIZE - (acc ++ d).length) 0 ∧
    (store_rx d s).p = (acc ++ d).length := by
  constructor
  · simp only [store_rx, strncpy_bytes_of_no_nul d hd, hbuf, hp]
    rw [poke_eq d _ _ (by simp; omega), List.take_left', List.drop_append,
      List.drop_replicate]
    · simp only [List.length_append, Nat.sub_sub]
    · rfl
  · simp [store_rx, hp]

/-- A sequence of stores into a buffer that holds the bytes `acc`: all data is
appended in arrival order. -/
theorem store_all_acc (datas : List (List Nat)) :
    ∀ (s : Relay) (acc : List Nat),
      s.response_buffer = acc ++ List.replicate (RESPONSE_BUFFER_SIZE - acc.length) 0 →
      s.p = acc.length → (∀ d ∈ datas, 0 ∉ d) →
      acc.length + datas.flatten.length ≤ RESPONSE_BUFFER_SIZE →
      (store_all datas s).response_buffer =
        (acc ++ datas.flatten) ++
          List.replicate (RESPONSE_BUFFER_SIZE - (acc ++ datas.flatten).length) 0 ∧
      (store_all datas s).p = (acc ++ datas.flatten).length := by
  induction datas with
  | nil => intro s acc hbuf hp _ _; simpa [store_all] using ⟨hbuf, hp⟩
  | cons d ds ih =>
    intro s acc hbuf hp hnul hlen
    simp only [List.flatten_cons, List.length_append] at hlen
    obtain ⟨a1, a2⟩ := store_rx_acc s acc d hbuf hp (hnul d (by simp)) (by omega)
    have := ih (store_rx d s) (acc ++ d) a1 a2 (fun x hx => hnul x (by simp [hx]))
      (by simp only [List.length_append]; omega)
    simpa [store_all, List.append_assoc] using this

/-- The scanner on a buffer that holds the bytes `acc`, none of them NUL,
followed by NUL bytes, finds the token exactly when `acc` contains it. -/
theorem ack_found_acc (s : Relay) (acc : List Nat) (k : Nat)
    (hbuf : s.response_buffer = acc ++ List.replicate k 0) (h0 : 0 ∉ acc) (hk : 0 < k) :
    ack_found s = true ↔ OK_TOKEN <:+: acc := by
  have hnul : 0 ∈ s.response_buffer := by
    rw [hbuf]
    exact List.mem_append_right _ (by simp; omega)
  rw [ack_found_of_nul s hnul, hbuf, cstr_append_zeros acc k h0, strstr_iff]

/-- Receive events none of which completes a token only store their data. -/
theorem run_rx_no_token (datas : List (List Nat)) :
    ∀ (s : Relay) (acc : List Nat),
      s.response_buffer = acc ++ List.replicate (RESPONSE_BUFFER_SIZE - acc.length) 0 →
      s.p = acc.length → 0 ∉ acc → (∀ d ∈ datas, 0 ∉ d) →
      acc.length + datas.flatten.length < RESPONSE_BUFFER_SIZE →
      s.rx_enabled = true → ¬ OK_TOKEN <:+: acc ++ datas.flatten →
      s.run (rx_events datas) = store_all datas s := by
  induction datas with
  | nil => intro s acc _ _ _ _ _ _ _; rfl
  | cons d ds ih =>
    intro s acc hbuf hp h0 hnul hlen hrx hno
    simp only [List.flatten_cons, List.length_append] at hlen
    have hd0 : 0 ∉ d := hnul d (by simp)
    obtain ⟨a1, a2⟩ := store_rx_acc s acc d hbuf hp hd0 (by omega)
    have hacc : 0 ∉ acc ++ d := by simp [h0, hd0]
    have hnf : ack_found (store_rx d s) = false := by
      cases h : ack_found (store_rx d s)
      · rfl
      · exfalso
        apply hno
        have := (ack_found_acc _ _ _ a1 hacc
          (by simp only [List.length_append]; omega)).mp h
        refine this.trans ?_
        simp only [List.flatten_cons, ← List.append_assoc]
        exact List.infix_append' [] (acc ++ d) ds.flatten
    have hstep : s.step (.rx d) = store_rx d s := by
      rcases dispatcher_cases d s with ⟨he, h⟩ | ⟨_, _, h⟩ | ⟨_, h, _⟩ | ⟨_, h, _⟩
      · subst he
        obtain ⟨ri, fp, tid, gb, rb, p, t, ov, tm, nt, rx, out⟩ := s
        simp [Relay.step, uart_dispatcher, store_rx, strncpy_bytes, cstr, poke, poke_past]
      · simp [Relay.step, hrx, h]
      · rw [hnf] at h; exact absurd h (by simp)
      · rw [hnf] at h; exact absurd h (by simp)
    have hrun : s.run (rx_events (d :: ds)) = (s.step (.rx d)).run (rx_events ds) := by
      simp [Relay.run, rx_events]
    rw [hrun, hstep]
    have := ih (store_rx d s) (acc ++ d) a1 a2 hacc (fun x hx => hnul x (by simp [hx]))
      (by simp only [List.length_append]; omega) hrx
      (by simpa [List.append_assoc] using hno)
    rw [this]
    simp [store_all]

/-- C15 as stated fails: one receive event delivers a NUL byte followed by the
token, five bytes in all.  The bytes received contain the token, but `strncpy`
stops at the NUL byte and stores only NUL bytes, so the scanner reports no
match. -/
theorem C15_counterexample :
    ¬ (ack_found (store_all [[0, 79, 75, 13, 10]]
          (dl_handler 7 (some "job.gcode") (fun _ => some [71, 49, 10]) Relay.boot)) = true ↔
        OK_TOKEN <:+: [[0, 79, 75, 13, 10]].flatten) ∧
    OK_TOKEN <:+: [[0, 79, 75, 13, 10]].flatten ∧
    [[0, 79, 75, 13, 10]].flatten.length ≤ 19 ∧
    ack_detected [0, 79, 75, 13, 10]
      (dl_handler 7 (some "job.gcode") (fun _ => some [71, 49, 10]) Relay.boot) = false := by
  have hin : OK_TOKEN <:+: [[0, 79, 75, 13, 10]].flatten := ⟨[0], [], rfl⟩
  have hnf : ack_found (store_all [[0, 79, 75, 13, 10]]
      (dl_handler 7 (some "job.gcode") (fun _ => some [71, 49, 10]) Relay.boot)) = false := by
    decide
  refine ⟨?_, hin, by decide, by decide⟩
  intro h
  rw [hnf] at h
  exact absurd (h.mpr hin) (by simp)

/-- C15, amended: the scanner is a substring search over everything received
since the reset, provided no NUL byte is received.  From a reset response
buffer, for receive events without NUL bytes whose total length is at most 19,
the scanner finds the token after the last store if and only if the bytes
received since the reset, put together, contain `OK\r\n` as a contiguous
block; and when the events before the last one do not contain the token, they
only store their data and the dispatcher reports a match in the last event
under the same condition. -/
theorem C15_scanner_substring (s : Relay) (datas : List (List Nat))
    (hbuf : s.response_buffer = List.replicate RESPONSE_BUFFER_SIZE 0) (hp : s.p = 0)
    (hnul : ∀ d ∈ datas, 0 ∉ d) (hlen : datas.flatten.length ≤ 19) :
    (ack_found (store_all datas s) = true ↔ OK_TOKEN <:+: datas.flatten) ∧
    (∀ ds d, datas = ds ++ [d] → s.rx_enabled = true → ¬ OK_TOKEN <:+: ds.flatten →
      s.run (rx_events ds) = store_all ds s ∧
      (ack_detected d (s.run (rx_events ds)) = true ↔ OK_TOKEN <:+: datas.flatten)) := by
  have hbuf0 : s.response_buffer =
      ([] : List Nat) ++ List.replicate (RESPONSE_BUFFER_SIZE - ([] : List Nat).length) 0 := by
    simpa using hbuf
  have hsize : RESPONSE_BUFFER_SIZE = 20 := rfl
  have hall : ack_found (store_all datas s) = true ↔ OK_TOKEN <:+: datas.flatten := by
    obtain ⟨a1, _⟩ := store_all_acc datas s [] hbuf0 (by simpa using hp) hnul
      (by simp only [List.length_nil]; omega)
    have h0 : 0 ∉ ([] : List Nat) ++ datas.flatten := by
      intro hmem
      obtain ⟨d, hd, hm⟩ := List.mem_flatten.mp (by simpa using hmem)
      exact hnul d hd hm
    simpa using ack_found_acc _ _ _ a1 h0
      (by simp only [List.nil_append]; omega)
  refine ⟨hall, ?_⟩
  intro ds d hds hrx hno
  subst hds
  have hlen2 : ds.flatten.length + d.length ≤ 19 := by simpa using hlen
  have hrun := run_rx_no_token ds s [] hbuf0 (by simpa using hp) (by simp)
    (fun x hx => hnul x (by simp [hx])) (by simp only [List.length_nil]; omega) hrx
    (by simpa using hno)
  refine ⟨hrun, ?_⟩
  rw [hrun]
  have hst : store_all (ds ++ [d]) s = store_rx d (store_all ds s) := by
    simp [store_all]
  rw [hst] at hall
  by_cases hd : d = []
  · subst hd
    simp only [ack_detected, List.length_nil, gt_iff_lt, lt_self_iff_false, decide_False,
      Bool.false_and, Bool.false_eq_true, false_iff]
    simpa using hno
  · have hpos : d.length > 0 := List.length_pos.mpr hd
    simpa [ack_detected, hpos] using hall

/-- Witness of C15, amended: the token split over the events `O` and `K\r\n`
after a relay has been started. -/
theorem C15_scanner_substring_witness :
    ack_found (store_all [[79], [75, 13, 10]]
        (dl_handler 7 (some "job.gcode") (fun _ => some [71, 49, 10]) Relay.boot)) = true ↔
      OK_TOKEN <:+: [[79], [75, 13, 10]].flatten :=
  (C15_scanner_substring
    (dl_handler 7 (some "job.gcode") (fun _ => some [71, 49, 10]) Relay.boot)
    [[79], [75, 13, 10]] (by decide) (by decide) (by decide) (by decide)).1

/-- The bytes `strncpy(dst, src, n)` stores are `n` in number. -/
theorem strncpy_bytes_length (src : List Nat) (n : Nat) : (strncpy_bytes src n).length = n := by
  simp only [strncpy_bytes, List.length_append, List.length_replicate, List.length_take]
  omega

/-- C16 as stated fails: a receive event delivers the three bytes `A`, NUL,
`B` after a relay has been started.  No token is found, but the bytes stored at
the cursor are `A`, NUL, NUL: `strncpy` stops at the NUL byte and pads, so the
received bytes are not what is appended, although they fit into the buffer. -/
theorem C16_counterexample :
    ack_found ((dl_handler 7 (some "job.gcode") (fun _ => some [71, 49, 10]) Relay.boot).step
      (.rx [65, 0, 66])) = false ∧
    ((((dl_handler 7 (some "job.gcode") (fun _ => some [71, 49, 10]) Relay.boot).step
      (.rx [65, 0, 66])).response_buffer.drop
        (dl_handler 7 (some "job.gcode") (fun _ => some [71, 49, 10]) Relay.boot).p).take 3) =
      [65, 0, 0] ∧
    ((((dl_handler 7 (some "job.gcode") (fun _ => some [71, 49, 10]) Relay.boot).step
      (.rx [65, 0, 66])).response_buffer.drop
        (dl_handler 7 (some "job.gcode") (fun _ => some [71, 49, 10]) Relay.boot).p).take 3) ≠
      [65, 0, 66] ∧
    (dl_handler 7 (some "job.gcode") (fun _ => some [71, 49, 10]) Relay.boot).p + 3 <
      RESPONSE_BUFFER_SIZE := by
  decide

/-- C16, amended: a receive event whose data fits into the response buffer from
the cursor on and leaves room for the terminating NUL byte, the buffer being
clear from the cursor on as it is since the last reset, and after which the
scanner finds no token, leaves the engine waiting.  The bytes that `strncpy`
stores, the received bytes up to their first NUL byte padded with NUL bytes to
their number, replace the buffer content at the cursor, and for data without a
NUL byte these are the received bytes themselves; the rest of the buffer is
unchanged, nothing is stored past the array, and the cursor advances by the
number of received bytes.  Nothing is written to the serial link, no report is
sent, and the source handle with its position, the countdown, the line buffer,
the armed timers and the notification switch are unchanged. -/
theorem C16_no_token_frame (s : Relay) (data : List Nat) (hrx : s.rx_enabled = true)
    (hsize : s.response_buffer.length = RESPONSE_BUFFER_SIZE)
    (hclear : ∀ x ∈ s.response_buffer.drop s.p, x = 0)
    (hfit : s.p + data.length < RESPONSE_BUFFER_SIZE)
    (hno : ack_found (store_rx data s) = false) :
    (s.step (.rx data)).p = s.p + data.length ∧
    (s.step (.rx data)).response_buffer =
      s.response_buffer.take s.p ++ strncpy_bytes data data.length ++
        s.response_buffer.drop (s.p + data.length) ∧
    (0 ∉ data →
      (s.step (.rx data)).response_buffer =
        s.response_buffer.take s.p ++ data ++ s.response_buffer.drop (s.p + data.length)) ∧
    (s.step (.rx data)).overrun = s.overrun ∧
    (s.step (.rx data)).out = s.out ∧
    (s.step (.rx data)).writes = s.writes ∧
    (s.step (.rx data)).reports = s.reports ∧
    (s.step (.rx data)).fp = s.fp ∧
    (s.step (.rx data)).timeout = s.timeout ∧
    (s.step (.rx data)).gcode_buffer = s.gcode_buffer ∧
    (s.step (.rx data)).timers = s.timers ∧
    (s.step (.rx data)).rx_enabled = true ∧
    (s.step (.rx data)).response_buffer.length = RESPONSE_BUFFER_SIZE ∧
    (∀ x ∈ (s.step (.rx data)).response_buffer.drop (s.step (.rx data)).p, x = 0) ∧
    0 ∈ (s.step (.rx data)).response_buffer := by
  have hslen := strncpy_bytes_length data data.length
  have hbuf : (store_rx data s).response_buffer =
      s.response_buffer.take s.p ++ strncpy_bytes data data.length ++
        s.response_buffer.drop (s.p + data.length) := by
    have := poke_eq (strncpy_bytes data data.length) s.response_buffer s.p
      (by rw [hslen, hsize]; omega)
    rw [hslen] at this
    exact this
  have hov : (store_rx data s).overrun = s.overrun := by
    have hnil : (strncpy_bytes data data.length).drop (RESPONSE_BUFFER_SIZE - s.p) = [] :=
      List.drop_eq_nil_of_le (by rw [hslen]; omega)
    simp only [store_rx, hnil, poke_past]
  have hstep : s.step (.rx data) = store_rx data s := by
    rcases dispatcher_cases data s with ⟨he, _⟩ | ⟨_, _, h⟩ | ⟨_, h, _⟩ | ⟨_, h, _⟩
    · subst he
      obtain ⟨ri, fp, tid, gb, rb, p, t, ov, tm, nt, rx, out⟩ := s
      simp [Relay.step, uart_dispatcher, store_rx, strncpy_bytes, cstr, poke, poke_past]
    · simp [Relay.step, hrx, h]
    · rw [hno] at h; exact absurd h (by simp)
    · rw [hno] at h; exact absurd h (by simp)
  have htake : (s.response_buffer.take s.p).length = s.p := by
    rw [List.length_take, hsize]; omega
  have hdrop : ((store_rx data s).response_buffer).drop (s.p + data.length) =
      s.response_buffer.drop (s.p + data.length) := by
    rw [hbuf]
    apply List.drop_left'
    rw [List.length_append, htake, hslen]
  have hsub : ∀ x ∈ s.response_buffer.drop (s.p + data.length), x = 0 := fun x hx =>
    hclear x (List.drop_subset_drop_left _ (Nat.le_add_right _ _) hx)
  have hne : s.response_buffer.drop (s.p + data.length) ≠ [] := by
    intro h
    have := congrArg List.length h
    rw [List.length_drop, hsize] at this
    simp at this
    omega
  rw [hstep]
  refine ⟨rfl, hbuf, ?_, hov, rfl, rfl, rfl, rfl, rfl, rfl, rfl, hrx, ?_, ?_, ?_⟩
  · intro h0
    rw [hbuf, strncpy_bytes_of_no_nul data h0]
  · rw [hbuf]
    simp only [List.length_append, htake, hslen, List.length_drop, hsize]
    omega
  · show ∀ x ∈ ((store_rx data s).response_buffer).drop (s.p + data.length), x = 0
    rw [hdrop]
    exact hsub
  · rw [hbuf]
    obtain ⟨x, hx⟩ := List.exists_mem_of_ne_nil _ hne
    have h0 : x = 0 := hsub x hx
    subst h0
    exact List.mem_append_right _ hx

/-- Witness of C16, amended: the bytes `ok` and a newline, which are no token,
after a relay has been started. -/
theorem C16_no_token_frame_witness :
    ((dl_handler 7 (some "job.gcode") (fun _ => some [71, 49, 10]) Relay.boot).step
      (.rx [111, 107, 10])).p =
      (dl_handler 7 (some "job.gcode") (fun _ => some [71, 49, 10]) Relay.boot).p + 3 :=
  (C16_no_token_frame
    (dl_handler 7 (some "job.gcode") (fun _ => some [71, 49, 10]) Relay.boot)
    [111, 107, 10] (by decide) (by decide) (by decide) (by decide) (by decide)).1

/-! ## Fetch engine: the status that is reported -/

/-- The statuses recorded by a sequence that does not start with the
connection-closed event. -/
theorem recorded_statuses_cons (e : HttpEvent) (es : List HttpEvent) (h : e ≠ .close) :
    recorded_statuses (e :: es) = recorded_statuses [e] ++ recorded_statuses es := by
  cases e with
  | close => exact absurd rfl h
  | connect cs => simp [recorded_statuses]
  | reply rc => simp [recorded_statuses]
  | other ev => simp [recorded_statuses]
  | chunk body room =>
    by_cases hr : room < body.length <;> simp [recorded_statuses, hr]

/-- Every recorded status is 500 or the status of a connect or full-reply
event. -/
theorem recorded_statuses_mem (evs : List HttpEvent) :
    ∀ x ∈ recorded_statuses evs,
      x = 500 ∨ HttpEvent.reply x ∈ evs ∨ HttpEvent.connect x ∈ evs := by
  induction evs with
  | nil => intro x hx; simp [recorded_statuses] at hx
  | cons e es ih =>
    intro x hx
    have hrest : x ∈ recorded_statuses es →
        x = 500 ∨ HttpEvent.reply x ∈ e :: es ∨ HttpEvent.connect x ∈ e :: es := by
      intro h
      rcases ih x h with h1 | h1 | h1
      · exact Or.inl h1
      · exact Or.inr (Or.inl (List.mem_cons_of_mem _ h1))
      · exact Or.inr (Or.inr (List.mem_cons_of_mem _ h1))
    cases e with
    | close => simp [recorded_statuses] at hx
    | connect cs =>
      simp only [recorded_statuses, List.mem_cons] at hx
      rcases hx with rfl | hx
      · exact Or.inr (Or.inr (by simp))
      · exact hrest hx
    | reply rc =>
      simp only [recorded_statuses, List.mem_cons] at hx
      rcases hx with rfl | hx
      · exact Or.inr (Or.inl (by simp))
      · exact hrest hx
    | other ev => exact hrest (by simpa [recorded_statuses] using hx)
    | chunk body room =>
      by_cases hr : room < body.length
      · simp only [recorded_statuses, hr, if_true, List.mem_cons] at hx
        rcases hx with rfl | hx
        · exact Or.inl rfl
        · exact hrest hx
      · exact hrest (by simpa [recorded_statuses, hr] using hx)

/-- One event other than the connection-closed event on a live session with an
open sink: the session stays live, the sink open, nothing is reported, and the
status is the one the event records, if it records one. -/
theorem deliver_status (w : FetchSession) (e : HttpEvent) (d : List Nat)
    (hfree : w.freed = false) (hfp : w.st.fp = some ⟨d, true⟩) (he : e ≠ .close) :
    (w.deliver e).freed = false ∧ (∃ d1, (w.deliver e).st.fp = some ⟨d1, true⟩) ∧
    (w.deliver e).st.ri = w.st.ri ∧ (w.deliver e).out = w.out ∧
    (w.deliver e).st.status = (recorded_statuses [e]).getLast?.getD w.st.status := by
  cases e with
  | close => exact absurd rfl he
  | connect cs => simp [FetchSession.deliver, http_cb, hfree, hfp, recorded_statuses]
  | reply rc => simp [FetchSession.deliver, http_cb, hfree, hfp, recorded_statuses]
  | other ev => simp [FetchSession.deliver, http_cb, hfree, hfp, recorded_statuses]
  | chunk body room =>
    by_cases hr : room < body.length
    · have hmin : min body.length room = room := Nat.min_eq_right (le_of_lt hr)
      have hne : ¬ room = body.length := by omega
      simp [FetchSession.deliver, http_cb, fwrite, hfree, hfp, recorded_statuses, hr, hmin,
        hne]
    · have hmin : min body.length room = body.length := Nat.min_eq_left (by omega)
      simp [FetchSession.deliver, http_cb, fwrite, hfree, hfp, recorded_statuses, hr, hmin]

/-- The reports of a run on a live session with an open sink: none before the
connection-closed event; with it exactly one, decided by the status recorded
last before it, or by the status the session started with when none was
recorded. -/
theorem run_status (evs : List HttpEvent) :
    ∀ (w : FetchSession) (d : List Nat), w.freed = false → w.st.fp = some ⟨d, true⟩ →
      (HttpEvent.close ∉ evs → reportsOf (w.run evs).out = reportsOf w.out) ∧
      (HttpEvent.close ∈ evs →
        (recorded_statuses evs).getLast?.getD w.st.status ≠ 200 →
        reportsOf (w.run evs).out = reportsOf w.out ++
          [.error w.st.ri ((recorded_statuses evs).getLast?.getD w.st.status) none]) ∧
      (HttpEvent.close ∈ evs →
        (recorded_statuses evs).getLast?.getD w.st.status = 200 →
        ∃ body, reportsOf (w.run evs).out = reportsOf w.out ++ [.response w.st.ri body]) := by
  induction evs with
  | nil =>
    intro w d _ _
    exact ⟨fun _ => rfl, fun h => absurd h (by simp), fun h => absurd h (by simp)⟩
  | cons e es ih =>
    intro w d hfree hfp
    have hrun : w.run (e :: es) = (w.deliver e).run es := by simp [FetchSession.run]
    rw [hrun]
    by_cases he : e = .close
    · subst he
      have hfr : (w.deliver .close).freed = true := by
        simp [FetchSession.deliver, http_cb, hfree, hfp]
      rw [run_freed es _ hfr, reports_deliver_close w hfree]
      refine ⟨fun h => absurd (List.mem_cons_self _ _) h, ?_, ?_⟩
      · intro _ hlast
        simp only [recorded_statuses, List.getLast?_nil, Option.getD_none] at hlast ⊢
        simp [hlast]
      · intro _ hlast
        simp only [recorded_statuses, List.getLast?_nil, Option.getD_none] at hlast
        exact ⟨fmt_written w.st.written, by simp [hlast]⟩
    · obtain ⟨a1, ⟨d1, a2⟩, a3, a4, a5⟩ := deliver_status w e d hfree hfp he
      obtain ⟨b1, b2, b3⟩ := ih (w.deliver e) d1 a1 a2
      have hlast : (recorded_statuses (e :: es)).getLast?.getD w.st.status =
          (recorded_statuses es).getLast?.getD (w.deliver e).st.status := by
        rw [recorded_statuses_cons e es he, List.getLast?_append, a5]
        cases (recorded_statuses es).getLast? <;> simp
      have hmem : HttpEvent.close ∈ e :: es ↔ HttpEvent.close ∈ es := by
        simp [List.mem_cons, Ne.symm he]
      rw [hlast, hmem, ← a3, ← a4]
      exact ⟨b1, b2, b3⟩

/-- C9, amended: every error report sent synchronously by `fetch_handler`
carries code 500.  For the session that `fetch_handler` started, an error
report is sent only by the connection-closed event and carries the status
recorded last before it: the HTTP status of a full-reply event, the raw
connection status of a connect event, or 500 recorded by a short write,
whichever was recorded last, and the initial status 0 when nothing was
recorded.  No other code is reported: when the status recorded last is not 200
the error report with that status is the only report, and nothing is recorded
but 500 and the statuses of full-reply and connect events. -/
theorem C9_error_codes (ri : Nat) (url path : Option String) (env : FetchEnv)
    (evs : List HttpEvent) :
    (∀ r ∈ (fetch_handler ri url path env).out, ∃ msg, r = Report.error ri 500 msg) ∧
    (∀ st, (fetch_handler ri url path env).session = some st →
      (∀ ri1 code msg,
        Report.error ri1 code msg ∈ reportsOf ((FetchSession.start st).run evs).out →
        code = (recorded_statuses evs).getLast?.getD 0 ∧ HttpEvent.close ∈ evs) ∧
      (HttpEvent.close ∈ evs → (recorded_statuses evs).getLast?.getD 0 ≠ 200 →
        reportsOf ((FetchSession.start st).run evs).out =
          [.error ri ((recorded_statuses evs).getLast?.getD 0) none])) ∧
    (∀ x ∈ recorded_statuses evs,
      x = 500 ∨ HttpEvent.reply x ∈ evs ∨ HttpEvent.connect x ∈ evs) ∧
    (recorded_statuses evs = [] → (recorded_statuses evs).getLast?.getD 0 = 0) := by
  refine ⟨?_, ?_, recorded_statuses_mem evs, ?_⟩
  · intro r hr
    obtain ⟨fo, co, cn⟩ := env
    cases url <;> cases path <;> cases fo <;> cases co <;> cases cn <;>
      simp [fetch_handler] at hr <;> exact ⟨_, hr⟩
  · intro st hst
    have hs := fetch_handler_session ri url path env st hst
    subst hs
    obtain ⟨b1, b2, b3⟩ :=
      run_status evs (FetchSession.start ⟨ri, 0, 0, some ⟨[], true⟩⟩) [] rfl rfl
    have hri : (FetchSession.start ⟨ri, 0, 0, some ⟨[], true⟩⟩).st.ri = ri := rfl
    have hst0 : (FetchSession.start ⟨ri, 0, 0, some ⟨[], true⟩⟩).st.status = 0 := rfl
    have hout : reportsOf (FetchSession.start ⟨ri, 0, 0, some ⟨[], true⟩⟩).out = [] := rfl
    rw [hri, hst0, hout] at b2 b3
    rw [hout] at b1
    constructor
    · intro ri1 code msg hmem
      by_cases hc : HttpEvent.close ∈ evs
      · by_cases h200 : (recorded_statuses evs).getLast?.getD 0 = 200
        · obtain ⟨body, hb⟩ := b3 hc h200
          rw [hb] at hmem
          simp at hmem
        · rw [b2 hc h200] at hmem
          simp only [List.nil_append, List.mem_singleton, Report.error.injEq] at hmem
          exact ⟨hmem.2.1, hc⟩
      · rw [b1 hc] at hmem
        simp at hmem
    · intro hc h200
      simpa using b2 hc h200
  · intro h
    rw [h]
    rfl

/-- Witness of C9, amended: connect, a full reply with status 404 and the close
are reported with 404, the status recorded last, not with the connection
status 0. -/
theorem C9_error_codes_witness :
    reportsOf ((FetchSession.start ⟨3, 0, 0, some ⟨[], true⟩⟩).run
      [.connect 0, .reply 404, .close]).out = [.error 3 404 none] :=
  (((C9_error_codes 3 (some "http://h/none") (some "job.gcode") ⟨true, true, true⟩
    [.connect 0, .reply 404, .close]).2.1 ⟨3, 0, 0, some ⟨[], true⟩⟩ (by decide)).2
      (by decide) (by decide)).trans (by decide)

end Esp32
